import Mathlib

/-!
Shallow embedding of the dungeon generator (src/src/Dungeon.ts and the Tile
module in src/unnamed/part_000), together with theorems settling the frozen
claims about its specification.

Conventions:
* JavaScript numbers used as integers are modelled as `Int` (with `Int.fdiv`
  where the source uses `Math.floor` of a division, since JS floors toward
  negative infinity).
* The tile matrix `this.tiles : Tile[][]` is `List (List Tile)`; JS indexing
  with an out-of-range or negative index yields `undefined`, modelled by
  `Option`-returning lookups.
* Tile neighbor links are wired by `fill` to the canonical tile of the
  adjacent coordinate, so neighbor access is modelled as index lookup into
  the current grid (`neighborsAt`).
* The PRNG (the external "chance" package) is modelled from the spec: a
  deterministic stream of raw draws, with `randBetween min max` mapping the
  next raw draw uniformly into `[min, max]`.  Quantifying over all streams
  covers every possible draw sequence.
* Code of this repository that is not under src/ (Room, Region, the fluent
  queries, Results, Coordinates) is modelled from the spec where the claims
  need it; each such definition carries a `Modelled from the spec:` comment.
-/

namespace DungeonGen

/-- Modelled from the spec: the PRNG is a deterministic integer generator;
we represent the raw draw sequence as a stream of naturals plus a cursor. -/
structure RngState where
  stream : Nat → Nat
  pos : Nat

/-- Advance the PRNG cursor by one draw. -/
def RngState.bump (r : RngState) : RngState := ⟨r.stream, r.pos + 1⟩

/-- Advance the PRNG cursor by `n` draws. -/
def RngState.bumpN (r : RngState) (n : Nat) : RngState := ⟨r.stream, r.pos + n⟩

/-- Modelled from the spec: `int_between(min,max)` is uniform inclusive.
Each call consumes exactly one raw draw.  (The underlying library raises on
`max < min`; that branch is unreachable at every call site we verify, and is
modelled as returning `min`.) -/
def randBetween (mn mx : Int) (r : RngState) : Int × RngState :=
  (if mx < mn then mn else mn + (r.stream r.pos : Int) % (mx - mn + 1), r.bump)

/-- `oneIn(num)` from Dungeon.ts: `randBetween(1, num) === 1`. -/
def oneIn (num : Int) (r : RngState) : Bool × RngState :=
  let p := randBetween 1 num r
  (p.1 == 1, p.2)

/-- `TileType` from the Tile module. -/
inductive TileType where
  | wall | floor | door | shaft | stairs
  deriving DecidableEq, Repr

/-- `RegionType` from the Region module (values used by the pipeline). -/
inductive RegionType where
  | room | corridor
  deriving DecidableEq, Repr

/-- `Tile` state from the Tile module: type, position, region id (−1 means
no region) and optional region type.  The stored neighbor map is modelled as
a derived view (`neighborsAt`), as the wiring in `fill` always points at the
canonical tile of each coordinate. -/
structure Tile where
  type : TileType
  x : Int
  y : Int
  region : Int
  regionType : Option RegionType
  deriving DecidableEq, Repr

/-- Modelled from the spec: `Room` is an axis-aligned rectangle
`(x, y, width, height)`. -/
structure Room where
  x : Int
  y : Int
  width : Int
  height : Int
  deriving DecidableEq, Repr

/-- Modelled from the spec: a region is an id plus a kind. -/
structure Region where
  id : Int
  rtype : Option RegionType
  deriving DecidableEq, Repr

/-- The tile matrix `tiles[x][y]` (outer index is the column/x). -/
abbrev Grid := List (List Tile)

/-- JS `this.tiles[x] && this.tiles[x][y]`: out-of-range (including
negative) indices yield no tile. -/
def tget (g : Grid) (x y : Int) : Option Tile :=
  if x < 0 ∨ y < 0 then none
  else match g[x.toNat]? with
    | none => none
    | some col => col[y.toNat]?

/-- Replace the element at index `y` by `f` of it (no-op out of range). -/
def colModify (col : List Tile) (y : Nat) (f : Tile → Tile) : List Tile :=
  match col[y]? with
  | none => col
  | some t => col.set y (f t)

/-- Mutate the canonical tile at `(x, y)` in place (no-op out of range; the
source throws a `RangeError` there, which is unreachable at the mutation
sites of the pipeline on the grids it builds). -/
def tset (g : Grid) (x y : Int) (f : Tile → Tile) : Grid :=
  if x < 0 ∨ y < 0 then g
  else match g[x.toNat]? with
    | none => g
    | some col => g.set x.toNat (colModify col y.toNat f)

/-- The `Neighbors` record from Dungeon.ts (all eight compass directions,
absent when outside the grid). -/
structure Neighbors where
  n : Option Tile
  ne : Option Tile
  e : Option Tile
  se : Option Tile
  s : Option Tile
  sw : Option Tile
  w : Option Tile
  nw : Option Tile
  deriving DecidableEq, Repr

/-- The neighbor wiring computed by the second loop of `fill`
(lines 142–171 of Dungeon.ts): each direction holds the canonical tile of
the adjacent coordinate when in range. -/
def neighborsAt (g : Grid) (x y : Int) : Neighbors where
  n := tget g x (y - 1)
  ne := tget g (x + 1) (y - 1)
  e := tget g (x + 1) y
  se := tget g (x + 1) (y + 1)
  s := tget g x (y + 1)
  sw := tget g (x - 1) (y + 1)
  w := tget g (x - 1) y
  nw := tget g (x - 1) (y - 1)

/-- `tile?.isFloor()`: an absent neighbor is falsy. -/
def floorOpt (o : Option Tile) : Bool :=
  match o with
  | none => false
  | some t => t.type == TileType.floor

/-- `Tile.isCorner()` from the Tile module: count the diagonal quadrants
whose two cardinal members are both floor, and test for exactly one. -/
def isCorner (nb : Neighbors) : Bool :=
  let c0 : Nat := 0
  let c1 := if floorOpt nb.n && floorOpt nb.e then c0 + 1 else c0
  let c2 := if floorOpt nb.n && floorOpt nb.w then c1 + 1 else c1
  let c3 := if floorOpt nb.s && floorOpt nb.e then c2 + 1 else c2
  let c4 := if floorOpt nb.s && floorOpt nb.w then c3 + 1 else c3
  c4 == 1

/-- A point / direction vector (Coordinates module, modelled from the spec). -/
structure Point where
  x : Int
  y : Int
  deriving DecidableEq, Repr

/-- Modelled from the spec: the four cardinal unit offsets
`(0,-1),(1,0),(0,1),(-1,0)` in that fixed order. -/
def cardinalDirections : List Point :=
  [⟨0, -1⟩, ⟨1, 0⟩, ⟨0, 1⟩, ⟨-1, 0⟩]

/-- Cardinal level-1 neighbors that exist, in cardinal order. -/
def cardinalTiles (g : Grid) (x y : Int) : List Tile :=
  cardinalDirections.filterMap fun d => tget g (x + d.x) (y + d.y)

/-- Modelled from the spec: the neighbor query `find().levels(1).type(t)`
defaults to cardinal traversal, so `Tile.doors()`/`Tile.floors()` count
cardinal level-1 neighbors of the given type. -/
def countCardinalType (g : Grid) (x y : Int) (ty : TileType) : Nat :=
  (cardinalTiles g x y).countP fun t => t.type == ty

/-- `Tile.nearDoors()`: some cardinal level-1 neighbor is a door. -/
def nearDoorsAt (g : Grid) (x y : Int) : Bool :=
  decide (0 < countCardinalType g x y TileType.door)

/-- `Tile.isAtEnd()`: exactly one cardinal level-1 neighbor is floor. -/
def isAtEndAt (g : Grid) (x y : Int) : Bool :=
  countCardinalType g x y TileType.floor == 1

/-- `isCorner` of the tile at `(x, y)` against the current grid. -/
def isCornerAt (g : Grid) (x y : Int) : Bool :=
  isCorner (neighborsAt g x y)

/-- `DungeonOptions` after constructor normalization (all defaults filled
in; `multiplier` coerced to a positive integer, the constructor replaces
non-positive or missing values by 1). -/
structure DOptions where
  doorChance : Int
  maxDoors : Int
  roomTries : Int
  roomExtraSize : Int
  windingPercent : Int
  multiplier : Int
  removeDeadEnds : Bool
  deriving DecidableEq, Repr

/-- The defaults from `defaultDungeonOptions` (with `multiplier = 1`,
`removeDeadEnds` unset). -/
def defaultOptions : DOptions :=
  { doorChance := 50, maxDoors := 5, roomTries := 50, roomExtraSize := 0
    windingPercent := 50, multiplier := 1, removeDeadEnds := false }

/-- `StageOptions`: width, height and an optional seed string. -/
structure Stage where
  width : Int
  height : Int
  seed : Option String
  deriving DecidableEq, Repr

/-- The mutable generator state: the tile matrix, the accepted rooms, the
current region, the (spec-modelled) monotone region-id allocator, and the
PRNG. -/
structure DState where
  tiles : Grid
  rooms : List Room
  region : Option Region
  nextRegionId : Int
  rng : RngState

/-- `this.region.id` (−1 stands for the pre-first-`startRegion` state, in
which the source would fault; the pipeline always starts a region before
carving). -/
def currentRid (st : DState) : Int :=
  (st.region.map Region.id).getD (-1)

/-- `this.region.type` as above. -/
def currentRtype (st : DState) : Option RegionType :=
  st.region.bind Region.rtype

/-- `setTile(x, y, type)`: set the type and stamp the current region id and
region type onto the canonical tile. -/
def setTileS (st : DState) (x y : Int) (ty : TileType) : DState :=
  { st with tiles := tset st.tiles x y fun t =>
      { t with type := ty, region := currentRid st, regionType := currentRtype st } }

/-- `resetTile(x, y)`: back to a bare wall with no region. -/
def resetTileG (g : Grid) (x y : Int) : Grid :=
  tset g x y fun t => { t with type := TileType.wall, region := -1, regionType := none }

/-- Modelled from the spec: `startRegion(type)` mints the next sequential
region id (the Region module is not under src/; the spec fixes a monotone
counter). -/
def startRegion (st : DState) (rt : RegionType) : DState :=
  { st with region := some ⟨st.nextRegionId, some rt⟩, nextRegionId := st.nextRegionId + 1 }

/-- `this.tiles[x].push(t)` (no-op when column `x` does not exist). -/
def pushTileAt (g : Grid) (x : Nat) (t : Tile) : Grid :=
  match g[x]? with
  | none => g
  | some col => g.set x (col ++ [t])

/-- The allocation loop of `fill` (lines 135–140 of Dungeon.ts): for each
`x < stage.width` push a fresh empty column onto `this.tiles`, then push
`stage.height` fresh tiles onto `this.tiles[x]` — which, when the matrix
already has columns from an earlier build, is an old column rather than the
newly pushed one. -/
def fillTiles (w h : Nat) (ty : TileType) (g0 : Grid) : Grid :=
  (List.range w).foldl
    (fun g (x : Nat) =>
      (List.range h).foldl
        (fun g2 (y : Nat) => pushTileAt g2 x ⟨ty, x, y, -1, none⟩)
        (g ++ [[]]))
    g0

/-- `canCarve(cell, direction)`: the cell three steps away must be an
in-bounds wall, and the destination two steps away must not already be
floor.  (The source reads the destination with `getTile`, which would throw
out of bounds; on the rectangular grids of the pipeline the destination is
always in bounds when the end is; the unreachable branch is modelled as
`false`.) -/
def canCarve (g : Grid) (cell : Point) (d : Point) : Bool :=
  match tget g (cell.x + d.x * 3) (cell.y + d.y * 3) with
  | none => false
  | some endT =>
    if endT.type != TileType.wall then false
    else
      match tget g (cell.x + d.x * 2) (cell.y + d.y * 2) with
      | none => false
      | some dest => dest.type != TileType.floor

/-- `unmadeCells[randBetween(0, length-1)]` (the call sites guarantee a
non-empty list, so the fallback value is unreachable). -/
def pickRandom (unmade : List Point) (r : RngState) : Point × RngState :=
  let p := randBetween 0 ((unmade.length : Int) - 1) r
  (unmade[p.1.toNat]?.getD ⟨0, 0⟩, p.2)

/-- The direction choice of `growMaze` (lines 282–289 of Dungeon.ts): when
the previous direction is still carveable and `randBetween(1,100)` exceeds
`windingPercent`, reuse it; otherwise draw uniformly from the candidates.
Note the draw only happens when the previous direction is a candidate
(short-circuit evaluation). -/
def chooseDirection (winding : Int) (lastDir : Option Point) (unmade : List Point)
    (r : RngState) : Point × RngState :=
  match lastDir with
  | some ld =>
    if ld ∈ unmade then
      let p := randBetween 1 100 r
      if p.1 > winding then (ld, p.2) else pickRandom unmade p.2
    else pickRandom unmade r
  | none => pickRandom unmade r

/-- One body of the `growMaze` while loop plus the recursion; `fuel`
realizes the source's `count < 500` bound (the loop also stops when the
cell stack empties). -/
def growMazeLoop (o : DOptions) : Nat → List Point → Option Point → DState → DState
  | 0, _, _, st => st
  | _ + 1, [], _, st => st
  | fuel + 1, cells@(c0 :: rest), lastDir, st =>
    let cell := (c0 :: rest).getLast (by simp)
    let unmade := cardinalDirections.filter fun d => canCarve st.tiles cell d
    if unmade.isEmpty then
      growMazeLoop o fuel cells.dropLast none st
    else
      let p := chooseDirection o.windingPercent lastDir unmade st.rng
      let dir := p.1
      let st := { st with rng := p.2 }
      let st := setTileS st (cell.x + dir.x) (cell.y + dir.y) TileType.floor
      let newCell : Point := ⟨cell.x + dir.x * 2, cell.y + dir.y * 2⟩
      let st := setTileS st newCell.x newCell.y TileType.floor
      growMazeLoop o fuel (cells ++ [newCell]) (some dir) st

/-- All eight neighbor slots of a `Neighbors` record, present ones only. -/
def neighborList (nb : Neighbors) : List (Option Tile) :=
  [nb.n, nb.ne, nb.e, nb.se, nb.s, nb.sw, nb.w, nb.nw]

/-- `growMaze(startX, startY)`: early-out when any compass neighbor of the
start is already floor, else start a corridor region, carve the start, and
run the growth loop with the 500-iteration cap. -/
def growMaze (o : DOptions) (startX startY : Int) (st : DState) : DState :=
  if (neighborList (neighborsAt st.tiles startX startY)).any floorOpt then st
  else
    let st := startRegion st RegionType.corridor
    let st := setTileS st startX startY TileType.floor
    growMazeLoop o 500 [⟨startX, startY⟩] none st

/-- Modelled from the spec: `Room.touches` holds when the rectangles
inflated by one on every side intersect (no one-wide wall can separate the
rooms). -/
def touches (a b : Room) : Bool :=
  decide (a.x - 1 ≤ b.x + b.width ∧ b.x - 1 ≤ a.x + a.width ∧
          a.y - 1 ≤ b.y + b.height ∧ b.y - 1 ≤ a.y + a.height)

/-- Modelled from the spec: `Room.containsTile(x, y)` holds on the room's
carved interior `[x, x+width) × [y, y+height)`. -/
def containsTile (rm : Room) (tx ty : Int) : Bool :=
  decide (rm.x ≤ tx ∧ tx < rm.x + rm.width ∧ rm.y ≤ ty ∧ ty < rm.y + rm.height)

/-- `carveArea(x, y, width, height)`: set every tile of the rectangle to
floor (stamping the current region). -/
def carveArea (x y w h : Int) (st : DState) : DState :=
  (List.range w.toNat).foldl
    (fun s i =>
      (List.range h.toNat).foldl
        (fun s2 j => setTileS s2 (x + i) (y + j) TileType.floor)
        s)
    st

/-- The room-size restriction of `addRooms` (lines 318–330 of Dungeon.ts):
`stageDim − 4·multiplier`, further capped at `ceil(stageDim·0.5)` when the
stage dimension exceeds 10 and the limit exceeds half the dimension.
`lim > dim·0.5` is the exact float comparison `2·lim > dim`, and
`Math.ceil(dim·0.5)` is `⌈dim/2⌉ = fdiv (dim+1) 2`. -/
def outerLimit (mult dim : Int) : Int :=
  let lim := dim - 4 * mult
  if dim > 10 ∧ 2 * lim > dim then (dim + 1).fdiv 2 else lim

/-- One candidate room of `addRooms` (lines 337–362 of Dungeon.ts), drawn
with exactly five PRNG draws in the fixed order: size, rectangularity,
axis bit, x, y.  The clamps after the draws consume no draws. -/
def drawCandidate (o : DOptions) (sw sh : Int) (r : RngState) : Room × RngState :=
  let p1 := randBetween 1 (3 + o.roomExtraSize) r
  let size := p1.1 * 2 + 1
  let p2 := randBetween 0 (1 + size.fdiv 2) p1.2
  let rectangularity := p2.1 * 2
  let p3 := oneIn 2 p2.2
  let width0 := if p3.1 then size + rectangularity else size
  let height0 := if p3.1 then size else size + rectangularity
  let width := min width0 (outerLimit o.multiplier sw)
  let height := min height0 (outerLimit o.multiplier sh)
  let p4 := randBetween 0 ((sw - width).fdiv 2) p3.2
  let x0 := p4.1 * 2 + 1
  let p5 := randBetween 0 ((sh - height).fdiv 2) p4.2
  let y0 := p5.1 * 2 + 1
  let x := if x0 + width ≥ sw then max 1 (sw - width - 1) else x0
  let y := if y0 + height ≥ sh then max 1 (sh - height - 1) else y0
  (⟨x, y, width, height⟩, p5.2)

/-- One iteration of the `roomTries` loop of `addRooms`: draw a candidate;
if it touches any accepted room, reject (keeping everything but the PRNG
cursor); otherwise accept it, start a `room` region and carve it. -/
def roomAttempt (o : DOptions) (sw sh : Int) (st : DState) : DState :=
  let p := drawCandidate o sw sh st.rng
  let room := p.1
  let st := { st with rng := p.2 }
  if st.rooms.any fun other => touches room other then st
  else
    let st := { st with rooms := st.rooms ++ [room] }
    let st := startRegion st RegionType.room
    carveArea room.x room.y room.width room.height st

/-- `addRooms()`: `roomTries` independent attempts. -/
def addRooms (o : DOptions) (sw sh : Int) (st : DState) : DState :=
  (List.range o.roomTries.toNat).foldl (fun s _ => roomAttempt o sw sh s) st

/-- Keep the first occurrence of each value (the effect of the query's
`unique('region')` filter). -/
def uniqueKeepFirst : List Int → List Int
  | [] => []
  | a :: rest => a :: uniqueKeepFirst (rest.filter fun b => b ≠ a)
termination_by l => l.length
decreasing_by
  exact Nat.lt_succ_of_le (List.length_filter_le _ _)

/-- Modelled from the spec: the connector query
`find().start(tile).unique('region').cardinal().levels().notRegion(-1)`
reads the distinct region ids among the cardinal level-1 neighbors,
excluding −1 (the spec fixes `levels()` to radius 1). -/
def tileRegionsAt (g : Grid) (x y : Int) : List Int :=
  uniqueKeepFirst
    (((cardinalTiles g x y).filter fun t => t.region != -1).map Tile.region)

/-- Insert a connector coordinate into the bucket of its region key,
appending new keys at the end (JS object insertion order). -/
def insertAssoc (acc : List (List Int × List (Int × Int))) (k : List Int)
    (c : Int × Int) : List (List Int × List (Int × Int)) :=
  match acc with
  | [] => [(k, [c])]
  | (k', l) :: rest =>
    if k' = k then (k', l ++ [c]) :: rest else (k', l) :: insertAssoc rest k c

/-- The connector-collection pass of `connectRegions` (lines 393–410 of
Dungeon.ts): every `-1`-region wall tile bordering at least two distinct
regions is bucketed under the joined region-id key.  (The dash-join of
non-negative ids is injective, so the key is modelled as the id list
itself.) -/
def collectConnectors (g : Grid) : List (List Int × List (Int × Int)) :=
  g.flatten.foldl
    (fun acc t =>
      if t.type != TileType.wall || t.region != -1 then acc
      else
        let regs := tileRegionsAt g t.x t.y
        if regs.length ≤ 1 then acc
        else insertAssoc acc regs (t.x, t.y))
    []

/-- Set only the `type` field of the canonical tile (the source writes
`door.type = 'door'` directly, bypassing `setTile`). -/
def setTypeOnly (g : Grid) (x y : Int) (ty : TileType) : Grid :=
  tset g x y fun t => { t with type := ty }

/-- State of the per-bucket door loop. -/
structure BucketSt where
  g : Grid
  r : RngState
  added : Int
  failed : List (Int × Int)

/-- The `while (added_connections < doorCount && i < doorChance)` loop of
`connectRegions` (lines 420–438); `fuel` counts the remaining values of
`i`.  Each iteration draws a connector index and the `oneIn(doorChance)`
coin; an eligible connector (not a corner, not near a door, not at a dead
end) becomes a door on a successful coin and is otherwise remembered as
failed by chance only. -/
def bucketIter (o : DOptions) (bucket : List (Int × Int)) (doorCount : Int) :
    Nat → BucketSt → BucketSt
  | 0, bs => bs
  | fuel + 1, bs =>
    if bs.added < doorCount then
      let p := randBetween 0 ((bucket.length : Int) - 1) bs.r
      let c := bucket[p.1.toNat]?.getD (0, 0)
      let q := oneIn o.doorChance p.2
      if !isCornerAt bs.g c.1 c.2 && !nearDoorsAt bs.g c.1 c.2 &&
          !isAtEndAt bs.g c.1 c.2 then
        if q.1 then
          bucketIter o bucket doorCount fuel
            ⟨setTypeOnly bs.g c.1 c.2 TileType.door, q.2, bs.added + 1, bs.failed⟩
        else
          bucketIter o bucket doorCount fuel ⟨bs.g, q.2, bs.added, bs.failed ++ [c]⟩
      else
        bucketIter o bucket doorCount fuel ⟨bs.g, q.2, bs.added, bs.failed⟩
    else bs

/-- Processing of one connector bucket (lines 414–452 of Dungeon.ts): the
door-count draw, the attempt loop, the forced-door fallback when the loop
added nothing, and the (claimed unreachable) error flag
`added_connections == 0` checked after the fallback. -/
def processBucket (o : DOptions) (bucket : List (Int × Int)) (st : DState) :
    DState × Bool :=
  let p0 := randBetween 1 o.maxDoors st.rng
  let bs := bucketIter o bucket p0.1 o.doorChance.toNat ⟨st.tiles, p0.2, 0, []⟩
  let bs :=
    if bs.added = 0 then
      let doors := if bs.failed.length != 0 then bs.failed else bucket
      let p := randBetween 0 ((doors.length : Int) - 1) bs.r
      let c := doors[p.1.toNat]?.getD (0, 0)
      ⟨setTypeOnly bs.g c.1 c.2 TileType.door, p.2, bs.added + 1, bs.failed⟩
    else bs
  ({ st with tiles := bs.g, rng := bs.r }, bs.added == 0)

/-- `connectRegions()`: collect the buckets once, then process each in
insertion order. -/
def connectRegions (o : DOptions) (st : DState) : DState :=
  (collectConnectors st.tiles).foldl (fun s kb => (processBucket o kb.2 s).1) st

/-- Non-wall cardinal level-1 neighbors of `(x, y)` — the count used by the
dead-end test `tile.find().cardinal().notType('wall').get().length`
(modelled from the spec: cardinal level-1 traversal). -/
def nonWallCardinalCount (g : Grid) (x y : Int) : Nat :=
  (cardinalTiles g x y).countP fun t => !(t.type == TileType.wall)

/-- The coordinate pairs visited by one dead-end pass, in source iteration
order (`for (const row of this.tiles) for (const tile of row)`). -/
def idxPairs (g : Grid) : List (Nat × Nat) :=
  (List.range g.length).flatMap fun x =>
    (List.range (g[x]?.getD []).length).map fun y => (x, y)

/-- One tile of a dead-end pass (lines 465–480 of Dungeon.ts): skip walls;
reset a non-room tile with at most one non-wall cardinal neighbor and clear
the pass's `done` flag. -/
def rdeStep (rooms : List Room) (st : Grid × Bool) (c : Nat × Nat) : Grid × Bool :=
  match tget st.1 c.1 c.2 with
  | none => st
  | some t =>
    if t.type = TileType.wall then st
    else if nonWallCardinalCount st.1 t.x t.y ≤ 1 ∧
        !(rooms.any fun rm => containsTile rm t.x t.y) then
      (resetTileG st.1 t.x t.y, false)
    else st

/-- One full `cycle()` of `removeDeadEnds`: scan every tile, returning the
mutated grid and whether the pass made no change. -/
def cycleD (rooms : List Room) (g : Grid) : Grid × Bool :=
  (idxPairs g).foldl (rdeStep rooms) (g, true)

/-- The `while (!done)` loop of `removeDeadEnds`, with explicit fuel (the
termination theorem shows `nonWallCount + 1` passes always reach the
fixpoint, so the fuelled loop computes exactly what the source's unbounded
loop does). -/
def rdeLoop (rooms : List Room) : Nat → Grid → Grid
  | 0, g => g
  | fuel + 1, g =>
    let p := cycleD rooms g
    if p.2 then p.1 else rdeLoop rooms fuel p.1

/-- Number of non-wall tiles of the grid (the strictly decreasing measure
of the dead-end loop). -/
def nonWallCount (g : Grid) : Nat :=
  (g.map fun col => col.countP fun t => !(t.type == TileType.wall)).sum

/-- `removeDeadEnds()` with the fuel that provably reaches the fixpoint. -/
def removeDeadEndsD (rooms : List Room) (g : Grid) : Grid :=
  rdeLoop rooms (nonWallCount g + 1) g

/-- The parity normalization of `validate`: an even dimension is raised to
the next odd number. -/
def normalizeDim (d : Int) : Int :=
  if d % 2 = 0 then d + 1 else d

/-- The effective stage dimension computed by `validate`: parity
normalization followed by the multiplier scaling. -/
def effectiveDim (mult d : Int) : Int :=
  normalizeDim d * mult

/-- `stage.seed || $chance.generateSlug()`: the supplied seed unless it is
falsy (absent or the empty string), in which case a generated slug is used.
The slug generator is passed explicitly as the one source of
run-to-run variation. -/
def seedOrSlug (seed : Option String) (slug : Unit → String) : String :=
  match seed with
  | some s => if s = "" then slug () else s
  | none => slug ()

/-- Modelled from the spec: the seeded PRNG produces a deterministic raw
draw stream from the seed string (the external Mersenne-Twister generator
abstracted as an arbitrary but fixed function of seed and draw index). -/
def chanceStream (seed : String) : Nat → Nat :=
  fun n =>
    (seed.foldl (fun a c => a * 31 + c.toNat) 7 + n * 2654435761) % 4294967296

/-- `Results`: the rooms, the tile matrix and the seed actually used. -/
structure Results where
  rooms : List Room
  tiles : Grid
  seed : String
  deriving Repr

/-- The maze pass of `build` (lines 218–226 of Dungeon.ts): for every
odd-coordinate cell, y-major, skip already-carved tiles and grow a maze
elsewhere.  (A missing tile would make the source's `getTile` throw; it is
treated as not-floor, and `growMaze` is a no-op there.) -/
def mazeAll (o : DOptions) (sw sh : Int) (st : DState) : DState :=
  ((List.range (sh.toNat / 2)).map fun k => (2 * k + 1 : Int)).foldl
    (fun s y =>
      ((List.range (sw.toNat / 2)).map fun k => (2 * k + 1 : Int)).foldl
        (fun s2 x =>
          match tget s2.tiles x y with
          | some t => if t.type = TileType.floor then s2 else growMaze o x y s2
          | none => growMaze o x y s2)
        s)
    st

/-- A fresh generator instance (`new Dungeon(...)` before any build). -/
def initState : DState :=
  { tiles := [], rooms := [], region := none, nextRegionId := 0
    rng := ⟨fun _ => 0, 0⟩ }

/-- `build(stage)` over an explicit prior state: `validate` (range checks,
parity normalization, multiplier scaling, seeding), `fill('wall')`,
`addRooms`, the maze pass, `connectRegions`, and optional
`removeDeadEnds`.  Nothing clears the previous tiles or rooms. -/
def buildD (o : DOptions) (stage : Stage) (slug : Unit → String) (st0 : DState) :
    Except String (Results × DState) :=
  if stage.width < 5 then
    Except.error "DungeonError: options.width must not be less than 5"
  else if stage.height < 5 then
    Except.error "DungeonError: options.height must not be less than 5"
  else
    let sw := effectiveDim o.multiplier stage.width
    let sh := effectiveDim o.multiplier stage.height
    let seed := seedOrSlug stage.seed slug
    let st := { st0 with rng := ⟨chanceStream seed, 0⟩ }
    let st := { st with tiles := fillTiles sw.toNat sh.toNat TileType.wall st.tiles }
    let st := addRooms o sw sh st
    let st := mazeAll o sw sh st
    let st := connectRegions o st
    let st := if o.removeDeadEnds then
        { st with tiles := removeDeadEndsD st.rooms st.tiles }
      else st
    Except.ok (⟨st.rooms, st.tiles, seed⟩, st)

/-- Decidable well-formedness of a grid: every stored tile records its own
coordinates.  This is what `fill`'s allocation establishes on a first
build, and what ties the object-identity mutation of the source to the
coordinate-indexed mutation of the model. -/
def wfB (g : Grid) : Bool :=
  (idxPairs g).all fun c =>
    match tget g c.1 c.2 with
    | none => true
    | some t => t.x == (c.1 : Int) && t.y == (c.2 : Int)

/-- Well-formedness as a proposition: every stored tile records its own
coordinates (`wfB` is its decidable check over a concrete grid). -/
def WFGrid (g : Grid) : Prop :=
  ∀ x y : Int, ∀ t : Tile, tget g x y = some t → t.x = x ∧ t.y = y

/-- The matrix the claim's words describe `fill` appending: `width` new
columns of `height` fresh tiles each.  (A definition following the claim's
words, to be compared with `fillTiles`, which is translated from the
source.) -/
def freshColumnsSpec (w h : Nat) (ty : TileType) : Grid :=
  (List.range w).map fun (x : Nat) =>
    (List.range h).map fun (y : Nat) => ⟨ty, x, y, -1, none⟩

/-! ## Theorems -/

/-- Helper: the result of one `randBetween` draw lies in `[mn, mx]` when
the range is non-degenerate. -/
theorem randBetween_mem (mn mx : Int) (r : RngState) (h : mn ≤ mx) :
    mn ≤ (randBetween mn mx r).1 ∧ (randBetween mn mx r).1 ≤ mx := by
  have hspan : (0 : Int) < mx - mn + 1 := by omega
  have hnn : (0 : Int) ≤ (r.stream r.pos : Int) % (mx - mn + 1) :=
    Int.emod_nonneg _ (by omega)
  have hlt : (r.stream r.pos : Int) % (mx - mn + 1) < mx - mn + 1 :=
    Int.emod_lt_of_pos _ hspan
  simp only [randBetween, if_neg (not_lt.mpr h)]
  omega

/-- Helper: each `randBetween` call consumes exactly one raw draw. -/
theorem randBetween_rng (mn mx : Int) (r : RngState) :
    (randBetween mn mx r).2 = r.bump := rfl

/-- **C8.** `isCorner()` is true iff exactly one of the four diagonal
quadrants — (n,e), (n,w), (s,e), (s,w) — has both cardinal members present
and of type floor. -/
theorem claim8_isCorner_exactly_one_quadrant (nb : Neighbors) :
    isCorner nb = true ↔
      [floorOpt nb.n && floorOpt nb.e, floorOpt nb.n && floorOpt nb.w,
       floorOpt nb.s && floorOpt nb.e, floorOpt nb.s && floorOpt nb.w].count true = 1 := by
  cases h1 : floorOpt nb.n && floorOpt nb.e <;>
    cases h2 : floorOpt nb.n && floorOpt nb.w <;>
      cases h3 : floorOpt nb.s && floorOpt nb.e <;>
        cases h4 : floorOpt nb.s && floorOpt nb.w <;>
          simp [isCorner, h1, h2, h3, h4, List.count_cons]

/-- **C1 (counterexample).** With `windingPercent = 0`, a carve step keeps
the previous direction even though an alternative carveable direction
exists: the claim's `windingPercent = 0 → always change direction` is
false on the code. -/
theorem claim1_counterexample :
    (chooseDirection 0 (some ⟨0, -1⟩) [⟨0, -1⟩, ⟨1, 0⟩] ⟨fun _ => 0, 0⟩).1 =
        (⟨0, -1⟩ : Point) ∧
      (⟨1, 0⟩ : Point) ∈ [(⟨0, -1⟩ : Point), ⟨1, 0⟩] ∧
      (⟨1, 0⟩ : Point) ≠ ⟨0, -1⟩ :=
  ⟨rfl, by decide, by decide⟩

/-- **C1 (amended).** The code's winding test is
`randBetween(1,100) > windingPercent` for *reusing* the previous
direction: with `windingPercent = 0` the draw (at least 1) always exceeds
0, so growth always prefers the previous direction when it is still
carveable; with `windingPercent = 100` the draw never exceeds 100, so the
direction is always drawn uniformly from the carveable candidates
(consuming the winding draw first). -/
theorem claim1_winding_inverted (last : Point) (unmade : List Point)
    (r : RngState) (h : last ∈ unmade) :
    (chooseDirection 0 (some last) unmade r).1 = last ∧
      chooseDirection 100 (some last) unmade r = pickRandom unmade r.bump := by
  have h1 := (randBetween_mem 1 100 r (by norm_num)).1
  have h2 := (randBetween_mem 1 100 r (by norm_num)).2
  constructor
  · simp only [chooseDirection, if_pos h]
    rw [if_pos (by omega)]
  · simp only [chooseDirection, if_pos h]
    rw [if_neg (by omega), randBetween_rng]

/-- Witness for C1's amended theorem at a concrete input. -/
theorem claim1_winding_inverted_witness :
    (chooseDirection 0 (some ⟨0, -1⟩) [⟨0, -1⟩, ⟨1, 0⟩] ⟨fun _ => 5, 0⟩).1 =
        (⟨0, -1⟩ : Point) ∧
      chooseDirection 100 (some ⟨0, -1⟩) [⟨0, -1⟩, ⟨1, 0⟩] ⟨fun _ => 5, 0⟩ =
        pickRandom [⟨0, -1⟩, ⟨1, 0⟩] (RngState.bump ⟨fun _ => 5, 0⟩) :=
  claim1_winding_inverted ⟨0, -1⟩ [⟨0, -1⟩, ⟨1, 0⟩] ⟨fun _ => 5, 0⟩ (by decide)

/-- **C2 (counterexample).** A stage of width 5 and height 5 passes
validation, yet with `multiplier = 2` the effective dimensions are 10 —
even, not odd: the claim fails for even multipliers. -/
theorem claim2_counterexample :
    ¬((5 : Int) < 5) ∧ effectiveDim 2 5 = 10 ∧ ¬Odd (10 : Int) := by
  refine ⟨by norm_num, rfl, ?_⟩
  rw [Int.odd_iff]
  norm_num

/-- **C2 (amended).** For a stage passing validation (both dimensions at
least 5) and any positive multiplier, the effective dimensions are at
least 5, and they are odd exactly when the multiplier is odd (the
normalization makes the pre-multiplication dimension odd, and the product
with the multiplier keeps that parity only for odd multipliers). -/
theorem claim2_effective_dims (m w h : Int) (hm : 1 ≤ m) (hw : 5 ≤ w) (hh : 5 ≤ h) :
    5 ≤ effectiveDim m w ∧ 5 ≤ effectiveDim m h ∧
      (Odd (effectiveDim m w) ↔ Odd m) ∧ (Odd (effectiveDim m h) ↔ Odd m) := by
  have key : ∀ d : Int, 5 ≤ d → 5 ≤ effectiveDim m d ∧ (Odd (effectiveDim m d) ↔ Odd m) := by
    intro d hd
    have hodd : Odd (normalizeDim d) := by
      rw [Int.odd_iff]
      unfold normalizeDim
      rcases Int.emod_two_eq_zero_or_one d with h0 | h0
      · simp [h0]
        omega
      · simp [h0]
    have hge : 5 ≤ normalizeDim d := by
      unfold normalizeDim
      split <;> omega
    constructor
    · calc (5 : Int) = 5 * 1 := by norm_num
        _ ≤ normalizeDim d * m := by
            apply mul_le_mul hge hm (by norm_num) (by omega)
    · rw [effectiveDim, Int.odd_mul]
      simp [hodd]
  exact ⟨(key w hw).1, (key h hh).1, (key w hw).2, (key h hh).2⟩

/-- Witness for C2's amended theorem at a concrete input. -/
theorem claim2_effective_dims_witness :
    5 ≤ effectiveDim 1 5 ∧ 5 ≤ effectiveDim 1 7 ∧
      (Odd (effectiveDim 1 5) ↔ Odd (1 : Int)) ∧
      (Odd (effectiveDim 1 7) ↔ Odd (1 : Int)) :=
  claim2_effective_dims 1 5 7 (by norm_num) (by norm_num) (by norm_num)

/-- Helper: a fold preserves any invariant its step preserves. -/
theorem foldl_preserve {α β : Type _} {P : α → Prop} (f : α → β → α)
    (step : ∀ a b, P a → P (f a b)) :
    ∀ (l : List β) (a : α), P a → P (l.foldl f a) := by
  intro l
  induction l with
  | nil => intro a h; exact h
  | cons b t ih => intro a h; exact ih (f a b) (step a b h)

/-- Helper: a candidate draw consumes exactly five raw draws. -/
theorem drawCandidate_rng (o : DOptions) (sw sh : Int) (r : RngState) :
    (drawCandidate o sw sh r).2 = r.bumpN 5 := rfl

/-- Helper: `setTileS` leaves everything but the tile matrix unchanged. -/
theorem setTileS_frame (st : DState) (x y : Int) (ty : TileType) :
    (setTileS st x y ty).rooms = st.rooms ∧ (setTileS st x y ty).rng = st.rng ∧
      (setTileS st x y ty).region = st.region ∧
      (setTileS st x y ty).nextRegionId = st.nextRegionId :=
  ⟨rfl, rfl, rfl, rfl⟩

/-- Helper: `carveArea` only changes the tile matrix. -/
theorem carveArea_frame (x y w h : Int) (st : DState) :
    (carveArea x y w h st).rooms = st.rooms ∧ (carveArea x y w h st).rng = st.rng ∧
      (carveArea x y w h st).nextRegionId = st.nextRegionId := by
  unfold carveArea
  refine foldl_preserve
    (P := fun (s : DState) =>
      s.rooms = st.rooms ∧ s.rng = st.rng ∧ s.nextRegionId = st.nextRegionId)
    _ ?_ _ _ ⟨rfl, rfl, rfl⟩
  intro a i ha
  refine foldl_preserve
    (P := fun (s : DState) =>
      s.rooms = st.rooms ∧ s.rng = st.rng ∧ s.nextRegionId = st.nextRegionId)
    _ ?_ _ _ ha
  intro a2 j ha2
  exact ha2

/-- **C6.** Every attempt of `addRooms` consumes exactly five PRNG draws —
the fixed sequence drawn by `drawCandidate` (size, rectangularity, axis
bit, x, y) — whether or not the candidate is accepted; and a rejected
attempt (one whose candidate touches an accepted room) changes nothing but
the PRNG cursor: in particular it mints no region id. -/
theorem claim6_attempt_draw_discipline (o : DOptions) (sw sh : Int) (st : DState) :
    (roomAttempt o sw sh st).rng = st.rng.bumpN 5 ∧
      ((st.rooms.any fun other => touches (drawCandidate o sw sh st.rng).1 other) = true →
        roomAttempt o sw sh st = { st with rng := st.rng.bumpN 5 }) := by
  constructor
  · simp only [roomAttempt]
    split
    · exact drawCandidate_rng o sw sh st.rng
    · rw [(carveArea_frame _ _ _ _ _).2.1]
      exact drawCandidate_rng o sw sh st.rng
  · intro hrej
    simp only [roomAttempt]
    rw [if_pos hrej, drawCandidate_rng]

/-- Witness for C6 at a concrete rejected attempt: a huge accepted room
makes the drawn candidate touch it, and the attempt leaves everything but
the PRNG cursor unchanged. -/
theorem claim6_attempt_draw_discipline_witness :
    (roomAttempt defaultOptions 15 15
        { initState with rooms := [⟨-100, -100, 300, 300⟩], rng := ⟨fun _ => 0, 0⟩ }).rng =
      RngState.bumpN ⟨fun _ => 0, 0⟩ 5 ∧
      roomAttempt defaultOptions 15 15
          { initState with rooms := [⟨-100, -100, 300, 300⟩], rng := ⟨fun _ => 0, 0⟩ } =
        { initState with
            rooms := [⟨-100, -100, 300, 300⟩]
            rng := RngState.bumpN ⟨fun _ => 0, 0⟩ 5 } :=
  ⟨(claim6_attempt_draw_discipline defaultOptions 15 15 _).1,
   (claim6_attempt_draw_discipline defaultOptions 15 15 _).2 (by decide)⟩

/-- Helper: a draw starting at 0 is never negative (even for a degenerate
range). -/
theorem randBetween_zero_nonneg (mx : Int) (r : RngState) :
    0 ≤ (randBetween 0 mx r).1 := by
  unfold randBetween
  split
  · norm_num
  · have := Int.emod_nonneg (r.stream r.pos : Int) (b := mx - 0 + 1) (by omega)
    simp only []
    omega

/-- Helper: the outer room-size limit always leaves a two-tile margin. -/
theorem outerLimit_le (m dim : Int) (hm : 1 ≤ m) :
    outerLimit m dim ≤ dim - 2 := by
  simp only [outerLimit]
  split
  · next hcap =>
    rw [Int.fdiv_eq_ediv _ (by norm_num)]
    omega
  · omega

/-- Helper: placement of one room axis (`width = min(drawn, limit)`, the
odd origin draw, and the edge clamp of `addRooms`). -/
theorem axis_place (W0 L dim xr : Int) (hodd : Odd W0) (hL : L ≤ dim - 2)
    (hxr : 0 ≤ xr) :
    1 ≤ (if xr * 2 + 1 + min W0 L ≥ dim then max 1 (dim - min W0 L - 1) else xr * 2 + 1) ∧
      (if xr * 2 + 1 + min W0 L ≥ dim then max 1 (dim - min W0 L - 1) else xr * 2 + 1) +
          min W0 L < dim ∧
      (Odd (min W0 L) ∨ min W0 L = L) ∧
      (Odd dim → Odd (min W0 L) →
        Odd (if xr * 2 + 1 + min W0 L ≥ dim then max 1 (dim - min W0 L - 1) else xr * 2 + 1)) := by
  have hwle : min W0 L ≤ dim - 2 := le_trans (min_le_right _ _) hL
  refine ⟨?_, ?_, ?_, ?_⟩
  · split
    · rcases max_choice 1 (dim - min W0 L - 1) with h | h <;> (rw [h]; try omega)
    · omega
  · split
    · rcases max_choice 1 (dim - min W0 L - 1) with h | h <;> (rw [h]; try omega)
    · next hnc => omega
  · rcases min_choice W0 L with h | h
    · left; rw [h]; exact hodd
    · right; rw [h]
  · intro hdim hw
    rw [Int.odd_iff] at hdim hw ⊢
    split
    · rcases max_choice 1 (dim - min W0 L - 1) with h | h <;> (rw [h]; try omega)
    · omega

/-- Helper: geometry of the candidate room as a function of the five drawn
values (size draw `a`, rectangularity draw `b`, axis bit `c`, origin draws
`xr`, `yr`). -/
theorem candidate_shape (m sw sh a b xr yr : Int) (c : Bool) (hm : 1 ≤ m)
    (hxr : 0 ≤ xr) (hyr : 0 ≤ yr) :
    let W0 : Int := if c then a * 2 + 1 + b * 2 else a * 2 + 1
    let H0 : Int := if c then a * 2 + 1 else a * 2 + 1 + b * 2
    let w := min W0 (outerLimit m sw)
    let h := min H0 (outerLimit m sh)
    let x := if xr * 2 + 1 + w ≥ sw then max 1 (sw - w - 1) else xr * 2 + 1
    let y := if yr * 2 + 1 + h ≥ sh then max 1 (sh - h - 1) else yr * 2 + 1
    1 ≤ x ∧ 1 ≤ y ∧ x + w < sw ∧ y + h < sh ∧
      (Odd w ∨ w = outerLimit m sw) ∧ (Odd h ∨ h = outerLimit m sh) ∧
      (Odd sw → Odd w → Odd x) ∧ (Odd sh → Odd h → Odd y) := by
  have hW0 : Odd (if c then a * 2 + 1 + b * 2 else a * 2 + 1) := by
    split <;> (rw [Int.odd_iff]; omega)
  have hH0 : Odd (if c then a * 2 + 1 else a * 2 + 1 + b * 2) := by
    split <;> (rw [Int.odd_iff]; omega)
  have hx := axis_place _ (outerLimit m sw) sw xr hW0 (outerLimit_le _ _ hm) hxr
  have hy := axis_place _ (outerLimit m sh) sh yr hH0 (outerLimit_le _ _ hm) hyr
  exact ⟨hx.1, hy.1, hx.2.1, hy.2.1, hx.2.2.1, hy.2.2.1, hx.2.2.2, hy.2.2.2⟩

/-- Helper: geometry of every candidate room drawn by `addRooms`. -/
theorem drawCandidate_geometry (o : DOptions) (sw sh : Int) (r : RngState)
    (hm : 1 ≤ o.multiplier) :
    1 ≤ (drawCandidate o sw sh r).1.x ∧ 1 ≤ (drawCandidate o sw sh r).1.y ∧
      (drawCandidate o sw sh r).1.x + (drawCandidate o sw sh r).1.width < sw ∧
      (drawCandidate o sw sh r).1.y + (drawCandidate o sw sh r).1.height < sh ∧
      (Odd (drawCandidate o sw sh r).1.width ∨
        (drawCandidate o sw sh r).1.width = outerLimit o.multiplier sw) ∧
      (Odd (drawCandidate o sw sh r).1.height ∨
        (drawCandidate o sw sh r).1.height = outerLimit o.multiplier sh) ∧
      (Odd sw → Odd (drawCandidate o sw sh r).1.width → Odd (drawCandidate o sw sh r).1.x) ∧
      (Odd sh → Odd (drawCandidate o sw sh r).1.height → Odd (drawCandidate o sw sh r).1.y) := by
  simp only [drawCandidate]
  exact candidate_shape o.multiplier sw sh _ _ _ _ _ hm
    (randBetween_zero_nonneg _ _) (randBetween_zero_nonneg _ _)

/-- Helper: rooms present after one attempt were already present or are
the attempt's own candidate. -/
theorem roomAttempt_rooms_subset (o : DOptions) (sw sh : Int) (st : DState) :
    ∀ rm ∈ (roomAttempt o sw sh st).rooms,
      rm ∈ st.rooms ∨ rm = (drawCandidate o sw sh st.rng).1 := by
  intro rm hrm
  simp only [roomAttempt] at hrm
  split at hrm
  · exact Or.inl hrm
  · rw [(carveArea_frame _ _ _ _ _).1] at hrm
    simp only [startRegion] at hrm
    rcases List.mem_append.mp hrm with h | h
    · exact Or.inl h
    · exact Or.inr (List.mem_singleton.mp h)

/-- **C3 (counterexample).** On a 15×15 stage with default options, the
attempt drawn from the raw stream `[2,4,0,3,0]` is accepted with room
`(x, y, width, height) = (6, 1, 8, 7)`: its width is even (the outer size
limit `ceil(15·0.5) = 8` is even and clamps the drawn width), and its
origin x = 6 is even (the edge clamp `max(1, 15 − 8 − 1)` destroys the odd
origin) — refuting the claimed oddness of accepted rooms' width and x. -/
theorem claim3_counterexample :
    (roomAttempt defaultOptions 15 15
        { initState with
            tiles := fillTiles 15 15 TileType.wall []
            rng := ⟨fun n => [2, 4, 0, 3, 0].getD n 0, 0⟩ }).rooms =
      [⟨6, 1, 8, 7⟩] ∧ (8 : Int) % 2 = 0 ∧ (6 : Int) % 2 = 0 := by
  refine ⟨by decide, by norm_num, by norm_num⟩

/-- **C3 (amended).** Every room accepted by `addRooms` satisfies the
positional bounds `x ≥ 1`, `y ≥ 1`, `x + width < grid width`,
`y + height < grid height`; its width/height are odd unless they were
clamped down to the outer size limit, and its origin coordinates are odd
whenever the corresponding dimension and room extent are odd (the edge
clamp preserves oddness in that case).  Oddness of all four fields —
as originally claimed — fails exactly when a clamp intervenes. -/
theorem claim3_accepted_room_geometry (o : DOptions) (sw sh : Int) (st : DState)
    (hm : 1 ≤ o.multiplier) :
    ∀ rm ∈ (addRooms o sw sh st).rooms,
      rm ∈ st.rooms ∨
        (1 ≤ rm.x ∧ 1 ≤ rm.y ∧ rm.x + rm.width < sw ∧ rm.y + rm.height < sh ∧
          (Odd rm.width ∨ rm.width = outerLimit o.multiplier sw) ∧
          (Odd rm.height ∨ rm.height = outerLimit o.multiplier sh) ∧
          (Odd sw → Odd rm.width → Odd rm.x) ∧
          (Odd sh → Odd rm.height → Odd rm.y)) := by
  unfold addRooms
  refine foldl_preserve
    (P := fun (s : DState) => ∀ rm ∈ s.rooms,
      rm ∈ st.rooms ∨
        (1 ≤ rm.x ∧ 1 ≤ rm.y ∧ rm.x + rm.width < sw ∧ rm.y + rm.height < sh ∧
          (Odd rm.width ∨ rm.width = outerLimit o.multiplier sw) ∧
          (Odd rm.height ∨ rm.height = outerLimit o.multiplier sh) ∧
          (Odd sw → Odd rm.width → Odd rm.x) ∧
          (Odd sh → Odd rm.height → Odd rm.y)))
    _ ?_ _ _ (fun rm h => Or.inl h)
  intro a _ ha rm hrm
  rcases roomAttempt_rooms_subset o sw sh a rm hrm with h | h
  · exact ha rm h
  · right
    rw [h]
    exact drawCandidate_geometry o sw sh a.rng hm

/-- Witness for C3's amended theorem: the accepted room of the
counterexample state satisfies the amended geometry. -/
theorem claim3_accepted_room_geometry_witness :
    (⟨6, 1, 8, 7⟩ : Room) ∈
        ({ initState with
            tiles := fillTiles 15 15 TileType.wall []
            rng := ⟨fun n => [2, 4, 0, 3, 0].getD n 0, 0⟩ } : DState).rooms ∨
      (1 ≤ (6 : Int) ∧ 1 ≤ (1 : Int) ∧ (6 : Int) + 8 < 15 ∧ (1 : Int) + 7 < 15 ∧
        (Odd (8 : Int) ∨ (8 : Int) = outerLimit defaultOptions.multiplier 15) ∧
        (Odd (7 : Int) ∨ (7 : Int) = outerLimit defaultOptions.multiplier 15) ∧
        (Odd (15 : Int) → Odd (8 : Int) → Odd (6 : Int)) ∧
        (Odd (15 : Int) → Odd (7 : Int) → Odd (1 : Int))) := by
  have h := claim3_accepted_room_geometry
    { defaultOptions with roomTries := 1 } 15 15
    { initState with
        tiles := fillTiles 15 15 TileType.wall []
        rng := ⟨fun n => [2, 4, 0, 3, 0].getD n 0, 0⟩ }
    (by norm_num [defaultOptions]) ⟨6, 1, 8, 7⟩ (by decide)
  exact h

/-- Helper: reading back the modified slot of `colModify`. -/
theorem colModify_get_self (col : List Tile) (y : Nat) (f : Tile → Tile) :
    (colModify col y f)[y]? = (col[y]?).map f := by
  unfold colModify
  cases h : col[y]? with
  | none => simp [h]
  | some t =>
    have hy : y < col.length := (List.getElem?_eq_some.mp h).1
    simp [List.getElem?_set_self hy, h]

/-- Helper: `colModify` leaves other slots alone. -/
theorem colModify_get_ne (col : List Tile) (y : Nat) (f : Tile → Tile) (b : Nat)
    (h : b ≠ y) : (colModify col y f)[b]? = col[b]? := by
  unfold colModify
  cases hc : col[y]? with
  | none => rfl
  | some t => exact List.getElem?_set_ne (fun e => h e.symm)

/-- Helper: pointwise description of a single-tile mutation: the mutated
coordinate reads back through `f`, every other coordinate is untouched. -/
theorem tget_tset (g : Grid) (x y : Int) (f : Tile → Tile) (a b : Int) :
    tget (tset g x y f) a b =
      if a = x ∧ b = y then (tget g x y).map f else tget g a b := by
  by_cases hneg : x < 0 ∨ y < 0
  · have hts : tset g x y f = g := by
      simp only [tset, if_pos hneg]
    have hnone : tget g x y = none := by
      simp only [tget, if_pos hneg]
    rw [hts, hnone]
    split
    · next hab =>
      obtain ⟨rfl, rfl⟩ := hab
      rw [hnone]
      rfl
    · rfl
  · cases hcol : g[x.toNat]? with
    | none =>
      have hts : tset g x y f = g := by
        simp only [tset, if_neg hneg, hcol]
      have hnone : tget g x y = none := by
        simp only [tget, if_neg hneg, hcol]
      rw [hts]
      split
      · next hab =>
        obtain ⟨rfl, rfl⟩ := hab
        rw [hnone]
        rfl
      · rfl
    | some col =>
      have hxlen : x.toNat < g.length := (List.getElem?_eq_some.mp hcol).1
      have hts : tset g x y f = g.set x.toNat (colModify col y.toNat f) := by
        simp only [tset, if_neg hneg, hcol]
      rw [hts]
      by_cases hab : a = x ∧ b = y
      · obtain ⟨rfl, rfl⟩ := hab
        rw [if_pos ⟨rfl, rfl⟩]
        simp only [tget, if_neg hneg, List.getElem?_set_self hxlen, hcol]
        exact colModify_get_self col _ f
      · rw [if_neg hab]
        by_cases habneg : a < 0 ∨ b < 0
        · simp only [tget, if_pos habneg]
        · by_cases hax : a.toNat = x.toNat
          · have haeq : a = x := by omega
            have hbne : b.toNat ≠ y.toNat := by
              have hb : b ≠ y := fun h => hab ⟨haeq, h⟩
              omega
            simp only [tget, if_neg habneg, hax, List.getElem?_set_self hxlen, hcol]
            exact colModify_get_ne col _ f _ hbne
          · simp only [tget, if_neg habneg,
              List.getElem?_set_ne (fun e => hax e.symm)]

/-- Helper: single-tile mutation preserves presence of every tile. -/
theorem tget_tset_isSome (g : Grid) (x y : Int) (f : Tile → Tile) (a b : Int) :
    (tget (tset g x y f) a b).isSome = (tget g a b).isSome := by
  rw [tget_tset]
  split
  · next hab =>
    obtain ⟨ha, hb⟩ := hab
    subst ha hb
    cases tget g a b <;> rfl
  · rfl

/-- Helper: `setTypeOnly` changes no field but `type`, pointwise. -/
theorem setTypeOnly_proj (g : Grid) (x y : Int) (ty : TileType) (a b : Int) :
    (tget (setTypeOnly g x y ty) a b).map (fun t => (t.region, t.regionType, t.x, t.y)) =
      (tget g a b).map (fun t => (t.region, t.regionType, t.x, t.y)) := by
  rw [setTypeOnly, tget_tset]
  split
  · next hab =>
    obtain ⟨ha, hb⟩ := hab
    subst ha hb
    cases tget g a b <;> rfl
  · rfl

/-- Helper: the bucket loop only performs `setTypeOnly` mutations, so all
non-`type` tile fields are pointwise invariant across it. -/
theorem bucketIter_proj (o : DOptions) (bucket : List (Int × Int)) (doorCount : Int) :
    ∀ (fuel : Nat) (bs : BucketSt) (a b : Int),
      (tget (bucketIter o bucket doorCount fuel bs).g a b).map
          (fun t => (t.region, t.regionType, t.x, t.y)) =
        (tget bs.g a b).map (fun t => (t.region, t.regionType, t.x, t.y)) := by
  intro fuel
  induction fuel with
  | zero => intro bs a b; rfl
  | succ n ih =>
    intro bs a b
    simp only [bucketIter]
    split
    · split
      · split
        · rw [ih]
          exact setTypeOnly_proj _ _ _ _ _ _
        · rw [ih]
      · rw [ih]
    · rfl

/-- **C9.** Marking a connector as a door — in the attempt loop or in the
forced fallback — changes only the tile's `type`: for every coordinate, the
`region`, `regionType`, `x` and `y` read back unchanged after the bucket is
processed (in particular a connector keeps `region = -1` and no
`regionType`). -/
theorem claim9_door_marking_only_type (o : DOptions) (bucket : List (Int × Int))
    (st : DState) (a b : Int) :
    (tget (processBucket o bucket st).1.tiles a b).map
        (fun t => (t.region, t.regionType, t.x, t.y)) =
      (tget st.tiles a b).map (fun t => (t.region, t.regionType, t.x, t.y)) := by
  rw [processBucket]
  split
  · rw [setTypeOnly_proj]
    exact bucketIter_proj o bucket _ _ _ a b
  · exact bucketIter_proj o bucket _ _ _ a b

/-- Helper: a uniformly drawn element of a non-empty list is a member. -/
theorem pick_mem {α : Type _} (l : List α) (d : α) (r : RngState) (hne : l ≠ []) :
    (l[((randBetween 0 ((l.length : Int) - 1) r).1).toNat]?).getD d ∈ l := by
  have hlen : 1 ≤ l.length := List.length_pos.mpr hne
  have hm := randBetween_mem 0 ((l.length : Int) - 1) r (by omega)
  have hidx : ((randBetween 0 ((l.length : Int) - 1) r).1).toNat < l.length := by
    omega
  cases hq : l[((randBetween 0 ((l.length : Int) - 1) r).1).toNat]? with
  | none =>
    rw [List.getElem?_eq_none_iff] at hq
    omega
  | some a =>
    simpa using List.getElem?_mem hq

/-- Helper: the invariants of the per-bucket door loop: the added count
stays non-negative, the failed-by-chance list stays inside the bucket,
every bucket coordinate keeps an in-range tile, and a positive added count
certifies a door on some bucket tile. -/
theorem bucketIter_inv (o : DOptions) (bucket : List (Int × Int)) (doorCount : Int)
    (hne : bucket ≠ []) :
    ∀ (fuel : Nat) (bs : BucketSt),
      0 ≤ bs.added →
      (∀ c ∈ bs.failed, c ∈ bucket) →
      (∀ c ∈ bucket, (tget bs.g c.1 c.2).isSome = true) →
      (1 ≤ bs.added →
        ∃ c ∈ bucket, ∃ t, tget bs.g c.1 c.2 = some t ∧ t.type = TileType.door) →
      0 ≤ (bucketIter o bucket doorCount fuel bs).added ∧
        (∀ c ∈ (bucketIter o bucket doorCount fuel bs).failed, c ∈ bucket) ∧
        (∀ c ∈ bucket,
          (tget (bucketIter o bucket doorCount fuel bs).g c.1 c.2).isSome = true) ∧
        (1 ≤ (bucketIter o bucket doorCount fuel bs).added →
          ∃ c ∈ bucket, ∃ t,
            tget (bucketIter o bucket doorCount fuel bs).g c.1 c.2 = some t ∧
              t.type = TileType.door) := by
  intro fuel
  induction fuel with
  | zero => exact fun bs h0 h1 h2 h3 => ⟨h0, h1, h2, h3⟩
  | succ n ih =>
    intro bs h0 h1 h2 h3
    simp only [bucketIter]
    split
    · have hcmem := pick_mem bucket (0, 0) bs.r hne
      split
      · split
        · -- a door was placed on the drawn connector
          refine ih _ (by show (0:Int) ≤ bs.added + 1; omega) h1 ?_ ?_
          · intro c hc
            rw [setTypeOnly, tget_tset_isSome]
            exact h2 c hc
          · intro _
            refine ⟨_, hcmem, ?_⟩
            obtain ⟨t, ht⟩ := Option.isSome_iff_exists.mp (h2 _ hcmem)
            refine ⟨{ t with type := TileType.door }, ?_, rfl⟩
            rw [setTypeOnly, tget_tset, if_pos ⟨rfl, rfl⟩, ht]
            rfl
        · -- failed by chance only
          refine ih _ h0 ?_ h2 h3
          intro c hc
          rcases List.mem_append.mp hc with h | h
          · exact h1 c h
          · rw [List.mem_singleton.mp h]
            exact hcmem
      · exact ih _ h0 h1 h2 h3
    · exact ⟨h0, h1, h2, h3⟩

/-- **C4.** After `connectRegions` processes a connector bucket, at least
one tile of that bucket has type `door` (the forced fallback places one
when the attempt loop added none), and the `Failed to add doors` error
branch, which tests `added_connections == 0` after the fallback, is
unreachable. -/
theorem claim4_bucket_always_doored (o : DOptions) (bucket : List (Int × Int))
    (st : DState) (hne : bucket ≠ [])
    (hin : ∀ c ∈ bucket, (tget st.tiles c.1 c.2).isSome = true) :
    (processBucket o bucket st).2 = false ∧
      ∃ c ∈ bucket, ∃ t,
        tget (processBucket o bucket st).1.tiles c.1 c.2 = some t ∧
          t.type = TileType.door := by
  have hinv := bucketIter_inv o bucket (randBetween 1 o.maxDoors st.rng).1 hne
    o.doorChance.toNat ⟨st.tiles, (randBetween 1 o.maxDoors st.rng).2, 0, []⟩
    (by norm_num) (by simp) hin (fun h => absurd h (by norm_num))
  simp only [processBucket]
  set B := bucketIter o bucket (randBetween 1 o.maxDoors st.rng).1 o.doorChance.toNat
    ⟨st.tiles, (randBetween 1 o.maxDoors st.rng).2, 0, []⟩ with hB
  by_cases hz : B.added = 0
  · rw [if_pos hz]
    have hdoorsne : (if (B.failed.length != 0) = true then B.failed else bucket) ≠ [] := by
      split
      · next hf =>
        intro hemp
        rw [hemp] at hf
        simp at hf
      · exact hne
    have hsub :
        ∀ c ∈ (if (B.failed.length != 0) = true then B.failed else bucket), c ∈ bucket := by
      split
      · exact hinv.2.1
      · exact fun c hc => hc
    have hcmem := pick_mem (if (B.failed.length != 0) = true then B.failed else bucket)
      ((0, 0) : Int × Int) B.r hdoorsne
    obtain ⟨t, ht⟩ := Option.isSome_iff_exists.mp (hinv.2.2.1 _ (hsub _ hcmem))
    constructor
    · have hflag : (B.added + 1 == 0) = false := by
        rw [hz]
        rfl
      exact hflag
    · have hd :
        tget (setTypeOnly B.g
            ((if (B.failed.length != 0) = true then B.failed else bucket)[((randBetween 0
                (((if (B.failed.length != 0) = true then B.failed else bucket).length : Int) - 1)
                B.r).1).toNat]?.getD ((0, 0) : Int × Int)).1
            ((if (B.failed.length != 0) = true then B.failed else bucket)[((randBetween 0
                (((if (B.failed.length != 0) = true then B.failed else bucket).length : Int) - 1)
                B.r).1).toNat]?.getD ((0, 0) : Int × Int)).2
            TileType.door)
          ((if (B.failed.length != 0) = true then B.failed else bucket)[((randBetween 0
              (((if (B.failed.length != 0) = true then B.failed else bucket).length : Int) - 1)
              B.r).1).toNat]?.getD ((0, 0) : Int × Int)).1
          ((if (B.failed.length != 0) = true then B.failed else bucket)[((randBetween 0
              (((if (B.failed.length != 0) = true then B.failed else bucket).length : Int) - 1)
              B.r).1).toNat]?.getD ((0, 0) : Int × Int)).2 =
          some { t with type := TileType.door } := by
        rw [setTypeOnly, tget_tset, if_pos ⟨rfl, rfl⟩, ht]
        rfl
      exact ⟨_, hsub _ hcmem, { t with type := TileType.door }, hd, rfl⟩
  · rw [if_neg hz]
    constructor
    · exact beq_eq_false_iff_ne.mpr hz
    · exact hinv.2.2.2 (by omega)

/-- Witness for C4 at a concrete one-connector bucket on a one-tile grid. -/
theorem claim4_bucket_always_doored_witness :
    (processBucket defaultOptions [((0 : Int), (0 : Int))]
        { initState with tiles := [[⟨TileType.wall, 0, 0, -1, none⟩]] }).2 = false ∧
      ∃ c ∈ [((0 : Int), (0 : Int))], ∃ t,
        tget (processBucket defaultOptions [((0 : Int), (0 : Int))]
            { initState with tiles := [[⟨TileType.wall, 0, 0, -1, none⟩]] }).1.tiles
            c.1 c.2 = some t ∧ t.type = TileType.door :=
  claim4_bucket_always_doored defaultOptions [((0 : Int), (0 : Int))]
    { initState with tiles := [[⟨TileType.wall, 0, 0, -1, none⟩]] }
    (by decide) (by decide)

/-- **C5.** `build` is a deterministic function of options, stage and
seed: the model is a pure function of `(options, stage, prior state)` plus
the slug generator — the only run-to-run varying input — and when a
(non-empty) seed string is supplied the slug generator is never consulted,
so two runs with identical options, stage and seed produce identical
results (tiles, rooms and recorded seed) and identical final states. -/
theorem claim5_build_deterministic (o : DOptions) (stage : Stage)
    (slugA slugB : Unit → String) (st0 : DState) (s : String)
    (hs : stage.seed = some s) (hne : s ≠ "") :
    buildD o stage slugA st0 = buildD o stage slugB st0 := by
  have hseed : ∀ g : Unit → String, seedOrSlug stage.seed g = s := by
    intro g
    rw [hs, seedOrSlug]
    simp [hne]
  simp only [buildD, hseed]

/-- Witness for C5: a 5×5 build with seed "s1" is independent of the slug
generator. -/
theorem claim5_build_deterministic_witness :
    buildD defaultOptions ⟨5, 5, some "s1"⟩ (fun _ => "slugA") initState =
      buildD defaultOptions ⟨5, 5, some "s1"⟩ (fun _ => "slugB") initState :=
  claim5_build_deterministic defaultOptions ⟨5, 5, some "s1"⟩ _ _ initState "s1"
    rfl (by decide)

/-- Helper: replacing one entry of a list of naturals rebalances its sum. -/
theorem sum_set_nat : ∀ (l : List Nat) (i : Nat) (a b : Nat), l[i]? = some b →
    (l.set i a).sum + b = l.sum + a := by
  intro l
  induction l with
  | nil => intro i a b h; simp at h
  | cons c rest ih =>
    intro i a b h
    cases i with
    | zero =>
      simp only [List.getElem?_cons_zero, Option.some.injEq] at h
      subst h
      simp [List.set]
      omega
    | succ j =>
      simp only [List.getElem?_cons_succ] at h
      have := ih j a b h
      simp only [List.set, List.sum_cons]
      omega

/-- Helper: replacing one entry of a list rebalances its `countP`. -/
theorem countP_set_bal {α : Type _} (p : α → Bool) (l : List α) (i : Nat) (a b : α)
    (h : l[i]? = some b) :
    (l.set i a).countP p + (if p b then 1 else 0) =
      l.countP p + (if p a then 1 else 0) := by
  obtain ⟨hlt, hget⟩ := List.getElem?_eq_some.mp h
  have hcs := List.countP_set p l i a hlt
  have hmem : b ∈ l := by
    rw [← hget]
    exact List.getElem_mem hlt
  by_cases hb : p b = true
  · have hpos : 0 < l.countP p := List.countP_pos_iff.mpr ⟨b, hmem, hb⟩
    rw [hget] at hcs
    simp [hb] at hcs ⊢
    omega
  · rw [hget] at hcs
    simp [hb] at hcs ⊢
    omega

/-- Helper: how one in-place tile mutation rebalances the non-wall count. -/
theorem nonWallCount_tset (g : Grid) (x y : Int) (f : Tile → Tile) (t : Tile)
    (ht : tget g x y = some t) :
    nonWallCount (tset g x y f) + (if !(t.type == TileType.wall) then 1 else 0) =
      nonWallCount g + (if !((f t).type == TileType.wall) then 1 else 0) := by
  rw [tget] at ht
  by_cases hneg : x < 0 ∨ y < 0
  · rw [if_pos hneg] at ht
    exact absurd ht (by simp)
  · rw [if_neg hneg] at ht
    cases hcol : g[x.toNat]? with
    | none =>
      rw [hcol] at ht
      exact absurd ht (by simp)
    | some col =>
      rw [hcol] at ht
      have ht2 : col[y.toNat]? = some t := ht
      have hts : tset g x y f = g.set x.toNat (colModify col y.toNat f) := by
        simp only [tset, if_neg hneg, hcol]
      have hcm : colModify col y.toNat f = col.set y.toNat (f t) := by
        simp only [colModify, ht2]
      rw [hts, hcm]
      have hmapget : (g.map fun c => c.countP fun tl => !(tl.type == TileType.wall))[x.toNat]? =
          some (col.countP fun tl => !(tl.type == TileType.wall)) := by
        rw [List.getElem?_map, hcol]
        rfl
      have houter := sum_set_nat (g.map fun c => c.countP fun tl => !(tl.type == TileType.wall))
        x.toNat ((col.set y.toNat (f t)).countP fun tl => !(tl.type == TileType.wall))
        (col.countP fun tl => !(tl.type == TileType.wall)) hmapget
      have hinner := countP_set_bal (fun tl => !(tl.type == TileType.wall)) col y.toNat (f t) t ht2
      have hinner2 : (col.set y.toNat (f t)).countP (fun tl => !(tl.type == TileType.wall)) +
          (if !(t.type == TileType.wall) then 1 else 0) =
          col.countP (fun tl => !(tl.type == TileType.wall)) +
          (if !((f t).type == TileType.wall) then 1 else 0) := hinner
      simp only [nonWallCount, List.map_set]
      omega

/-- Helper: the decidable well-formedness check implies the pointwise one. -/
theorem wfB_to_WFGrid (g : Grid) (hw : wfB g = true) : WFGrid g := by
  intro x y t ht
  have hneg : ¬(x < 0 ∨ y < 0) := by
    intro hneg
    rw [tget, if_pos hneg] at ht
    exact absurd ht (by simp)
  cases hcol : g[x.toNat]? with
  | none =>
    rw [tget, if_neg hneg, hcol] at ht
    exact absurd ht (by simp)
  | some col =>
    have ht' : col[y.toNat]? = some t := by
      rw [tget, if_neg hneg, hcol] at ht
      exact ht
    have hxlen : x.toNat < g.length := (List.getElem?_eq_some.mp hcol).1
    have hylen : y.toNat < col.length := (List.getElem?_eq_some.mp ht').1
    have hmem : (x.toNat, y.toNat) ∈ idxPairs g := by
      rw [idxPairs, List.mem_flatMap]
      refine ⟨x.toNat, List.mem_range.mpr hxlen, ?_⟩
      rw [List.mem_map]
      refine ⟨y.toNat, List.mem_range.mpr ?_, rfl⟩
      rw [hcol]
      exact hylen
    have hall := List.all_eq_true.mp hw _ hmem
    have hx : ((x.toNat : Int)) = x := by omega
    have hy : ((y.toNat : Int)) = y := by omega
    simp only [hx, hy] at hall
    rw [ht] at hall
    simp only [Bool.and_eq_true, beq_iff_eq] at hall
    exact hall

/-- Helper: coordinate-preserving mutations preserve well-formedness. -/
theorem WFGrid_tset (g : Grid) (x y : Int) (f : Tile → Tile)
    (hf : ∀ t, (f t).x = t.x ∧ (f t).y = t.y) (hwf : WFGrid g) :
    WFGrid (tset g x y f) := by
  intro a b t ht
  rw [tget_tset] at ht
  by_cases hab : a = x ∧ b = y
  · rw [if_pos hab] at ht
    cases hg : tget g x y with
    | none =>
      rw [hg] at ht
      exact absurd ht (by simp)
    | some t0 =>
      rw [hg] at ht
      simp only [Option.map_some', Option.some.injEq] at ht
      obtain ⟨ha, hb⟩ := hab
      subst ha hb
      have := hwf a b t0 hg
      rw [← ht]
      rw [(hf t0).1, (hf t0).2]
      exact this
  · rw [if_neg hab] at ht
    exact hwf a b t ht

/-- Helper: the branch analysis of one dead-end-pass step. -/
theorem rdeStep_cases (rooms : List Room) (g : Grid) (d : Bool) (c : Nat × Nat) :
    rdeStep rooms (g, d) c = (g, d) ∨
      ∃ t, tget g (c.1 : Int) (c.2 : Int) = some t ∧ ¬t.type = TileType.wall ∧
        rdeStep rooms (g, d) c = (resetTileG g t.x t.y, false) := by
  cases ht : tget g (c.1 : Int) (c.2 : Int) with
  | none =>
    left
    simp [rdeStep, ht]
  | some t =>
    by_cases hw : t.type = TileType.wall
    · left
      simp [rdeStep, ht, hw]
    · by_cases hcond : nonWallCardinalCount g t.x t.y ≤ 1 ∧
          (!(rooms.any fun rm => containsTile rm t.x t.y)) = true
      · right
        refine ⟨t, rfl, hw, ?_⟩
        simp [rdeStep, ht, hw, hcond]
      · left
        simp only [rdeStep, ht]
        rw [if_neg hw, if_neg hcond]

/-- Helper: a present tile has non-negative coordinates and its index pair
is enumerated by the pass. -/
theorem tget_bounds (g : Grid) (x y : Int) (t : Tile) (ht : tget g x y = some t) :
    0 ≤ x ∧ 0 ≤ y ∧ (x.toNat, y.toNat) ∈ idxPairs g := by
  have hneg : ¬(x < 0 ∨ y < 0) := by
    intro hneg
    rw [tget, if_pos hneg] at ht
    exact absurd ht (by simp)
  cases hcol : g[x.toNat]? with
  | none =>
    rw [tget, if_neg hneg, hcol] at ht
    exact absurd ht (by simp)
  | some col =>
    have ht' : col[y.toNat]? = some t := by
      rw [tget, if_neg hneg, hcol] at ht
      exact ht
    have hxlen : x.toNat < g.length := (List.getElem?_eq_some.mp hcol).1
    have hylen : y.toNat < col.length := (List.getElem?_eq_some.mp ht').1
    refine ⟨by omega, by omega, ?_⟩
    rw [idxPairs, List.mem_flatMap]
    refine ⟨x.toNat, List.mem_range.mpr hxlen, ?_⟩
    rw [List.mem_map]
    refine ⟨y.toNat, List.mem_range.mpr ?_, rfl⟩
    rw [hcol]
    exact hylen

/-- Helper: resetting a non-wall tile decreases the non-wall count by one. -/
theorem resetTile_dec (g : Grid) (x y : Int) (t : Tile) (ht : tget g x y = some t)
    (hnw : ¬t.type = TileType.wall) :
    nonWallCount (resetTileG g x y) + 1 = nonWallCount g := by
  have h := nonWallCount_tset g x y
    (fun tl => { tl with type := TileType.wall, region := -1, regionType := none }) t ht
  have hP : (!(t.type == TileType.wall)) = true := by
    simp [hnw]
  rw [hP] at h
  simp only [Bool.not_eq_true', beq_self_eq_true] at h
  simpa [resetTileG] using h

/-- Helper: a pass that starts with its `done` flag cleared keeps it
cleared. -/
theorem rde_fold_false (rooms : List Room) :
    ∀ (cs : List (Nat × Nat)) (g : Grid),
      (cs.foldl (rdeStep rooms) (g, false)).2 = false := by
  intro cs
  induction cs with
  | nil => intro g; rfl
  | cons c cs ih =>
    intro g
    rcases rdeStep_cases rooms g false c with h | ⟨t, _, _, h⟩ <;>
      (rw [List.foldl_cons, h]; exact ih _)

/-- Helper: a pass preserves grid well-formedness. -/
theorem rde_fold_wf (rooms : List Room) :
    ∀ (cs : List (Nat × Nat)) (g : Grid) (d : Bool), WFGrid g →
      WFGrid (cs.foldl (rdeStep rooms) (g, d)).1 := by
  intro cs
  induction cs with
  | nil => intro g d hwf; exact hwf
  | cons c cs ih =>
    intro g d hwf
    rcases rdeStep_cases rooms g d c with h | ⟨t, _, _, h⟩
    · rw [List.foldl_cons, h]
      exact ih g d hwf
    · rw [List.foldl_cons, h]
      exact ih _ _ (WFGrid_tset _ _ _ _ (fun tl => ⟨rfl, rfl⟩) hwf)

/-- Helper: a pass never increases the non-wall count. -/
theorem rde_fold_mono (rooms : List Room) :
    ∀ (cs : List (Nat × Nat)) (g : Grid) (d : Bool), WFGrid g →
      nonWallCount (cs.foldl (rdeStep rooms) (g, d)).1 ≤ nonWallCount g := by
  intro cs
  induction cs with
  | nil => intro g d _; exact le_rfl
  | cons c cs ih =>
    intro g d hwf
    rcases rdeStep_cases rooms g d c with h | ⟨t, htg, hnw, h⟩
    · rw [List.foldl_cons, h]
      exact ih g d hwf
    · rw [List.foldl_cons, h]
      obtain ⟨hx, hy⟩ := hwf _ _ _ htg
      have htg' : tget g t.x t.y = some t := by
        rw [hx, hy]
        exact htg
      have hdec := resetTile_dec g t.x t.y t htg' hnw
      have hle := ih (resetTileG g t.x t.y) false
        (WFGrid_tset _ _ _ _ (fun tl => ⟨rfl, rfl⟩) hwf)
      omega

/-- Helper: a pass that reports no change touched nothing, and every
visited coordinate passed its dead-end check. -/
theorem rde_fold_done (rooms : List Room) :
    ∀ (cs : List (Nat × Nat)) (g : Grid),
      (cs.foldl (rdeStep rooms) (g, true)).2 = true →
      (cs.foldl (rdeStep rooms) (g, true)).1 = g ∧
        ∀ c ∈ cs, rdeStep rooms (g, true) c = (g, true) := by
  intro cs
  induction cs with
  | nil => intro g _; exact ⟨rfl, by simp⟩
  | cons c cs ih =>
    intro g hdone
    rcases rdeStep_cases rooms g true c with h | ⟨t, _, _, h⟩
    · rw [List.foldl_cons, h] at hdone ⊢
      obtain ⟨h1, h2⟩ := ih g hdone
      refine ⟨h1, ?_⟩
      intro c2 hc2
      rcases List.mem_cons.mp hc2 with hc2 | hc2
      · rw [hc2]
        exact h
      · exact h2 c2 hc2
    · rw [List.foldl_cons, h] at hdone
      rw [rde_fold_false rooms cs _] at hdone
      exact absurd hdone (by simp)

/-- Helper: a pass that reports a change strictly decreases the non-wall
count. -/
theorem rde_fold_dec (rooms : List Room) :
    ∀ (cs : List (Nat × Nat)) (g : Grid), WFGrid g →
      (cs.foldl (rdeStep rooms) (g, true)).2 = false →
      nonWallCount (cs.foldl (rdeStep rooms) (g, true)).1 < nonWallCount g := by
  intro cs
  induction cs with
  | nil =>
    intro g _ hfalse
    exact absurd hfalse (by simp)
  | cons c cs ih =>
    intro g hwf hfalse
    rcases rdeStep_cases rooms g true c with h | ⟨t, htg, hnw, h⟩
    · rw [List.foldl_cons, h] at hfalse ⊢
      exact ih g hwf hfalse
    · rw [List.foldl_cons, h]
      obtain ⟨hx, hy⟩ := hwf _ _ _ htg
      have htg' : tget g t.x t.y = some t := by
        rw [hx, hy]
        exact htg
      have hdec := resetTile_dec g t.x t.y t htg' hnw
      have hle := rde_fold_mono rooms cs (resetTileG g t.x t.y) false
        (WFGrid_tset _ _ _ _ (fun tl => ⟨rfl, rfl⟩) hwf)
      omega

/-- Helper: with fuel exceeding the non-wall count, the dead-end loop
reaches a pass that makes no change. -/
theorem rde_loop_fix (rooms : List Room) :
    ∀ (fuel : Nat) (g : Grid), WFGrid g → nonWallCount g < fuel →
      (cycleD rooms (rdeLoop rooms fuel g)).2 = true := by
  intro fuel
  induction fuel with
  | zero =>
    intro g _ h
    exact absurd h (by omega)
  | succ n ih =>
    intro g hwf hlt
    simp only [rdeLoop]
    cases hp : (cycleD rooms g).2 with
    | true =>
      have hp' : ((idxPairs g).foldl (rdeStep rooms) (g, true)).2 = true := hp
      have heq : (cycleD rooms g).1 = g := (rde_fold_done rooms (idxPairs g) g hp').1
      rw [if_pos rfl, heq]
      exact hp
    | false =>
      rw [if_neg (by simp)]
      refine ih (cycleD rooms g).1 ?_ ?_
      · exact rde_fold_wf rooms (idxPairs g) g true hwf
      · have hp' : ((idxPairs g).foldl (rdeStep rooms) (g, true)).2 = false := hp
        have hdec : nonWallCount (cycleD rooms g).1 < nonWallCount g :=
          rde_fold_dec rooms (idxPairs g) g hwf hp'
        omega

/-- Helper: at a fixpoint of the pass, every non-wall tile outside all
rooms has at least two non-wall cardinal neighbors. -/
theorem cycle_done_post (rooms : List Room) (g : Grid)
    (hd : (cycleD rooms g).2 = true) :
    ∀ (x y : Int) (t : Tile), tget g x y = some t → ¬t.type = TileType.wall →
      (rooms.any fun rm => containsTile rm t.x t.y) = false →
      2 ≤ nonWallCardinalCount g t.x t.y := by
  intro x y t ht hnw hnr
  obtain ⟨hx0, hy0, hmem⟩ := tget_bounds g x y t ht
  have hd' : ((idxPairs g).foldl (rdeStep rooms) (g, true)).2 = true := hd
  have hstep := (rde_fold_done rooms (idxPairs g) g hd').2 _ hmem
  have hx : ((x.toNat : Int)) = x := by omega
  have hy : ((y.toNat : Int)) = y := by omega
  simp only [rdeStep, hx, hy, ht] at hstep
  rw [if_neg hnw] at hstep
  by_cases hcond : nonWallCardinalCount g t.x t.y ≤ 1 ∧
      (!(rooms.any fun rm => containsTile rm t.x t.y)) = true
  · rw [if_pos hcond] at hstep
    exact absurd hstep (by simp)
  · rw [Classical.not_and_iff_or_not_not] at hcond
    rcases hcond with hcond | hcond
    · omega
    · refine absurd ?_ hcond
      rw [hnr]
      rfl

/-- **C7.** On every well-formed grid (tiles record their own coordinates,
as a single `fill` establishes) the dead-end removal loop terminates —
`nonWallCount + 1` passes provably reach a pass making no change, each
changing pass strictly increasing the wall count, which is bounded by the
grid area — and at the resulting fixpoint every tile that is not a wall and
lies in no room has at least two cardinal neighbors that are not walls. -/
theorem claim7_dead_end_removal (rooms : List Room) (g : Grid)
    (hw : wfB g = true) :
    (cycleD rooms (removeDeadEndsD rooms g)).2 = true ∧
      ∀ (x y : Int) (t : Tile), tget (removeDeadEndsD rooms g) x y = some t →
        ¬t.type = TileType.wall →
        (rooms.any fun rm => containsTile rm t.x t.y) = false →
        2 ≤ nonWallCardinalCount (removeDeadEndsD rooms g) t.x t.y := by
  have hwf := wfB_to_WFGrid g hw
  have hfix : (cycleD rooms (removeDeadEndsD rooms g)).2 = true :=
    rde_loop_fix rooms (nonWallCount g + 1) g hwf (by omega)
  exact ⟨hfix, fun x y t ht hnw hnr =>
    cycle_done_post rooms _ hfix x y t ht hnw hnr⟩

/-- Witness for C7 on a one-tile grid holding a floor dead end: the loop
reaches its fixpoint. -/
theorem claim7_dead_end_removal_witness :
    (cycleD []
        (removeDeadEndsD [] [[⟨TileType.floor, 0, 0, 0, some RegionType.corridor⟩]])).2 =
      true :=
  (claim7_dead_end_removal [] [[⟨TileType.floor, 0, 0, 0, some RegionType.corridor⟩]]
    (by decide)).1

/-- Helper: indexing a one-element append. -/
theorem append_single_get {α : Type _} (l : List α) (a : α) (j : Nat) :
    (l ++ [a])[j]? =
      if j < l.length then l[j]? else if j = l.length then some a else none := by
  rw [List.getElem?_append]
  by_cases h1 : j < l.length
  · rw [if_pos h1, if_pos h1]
  · rw [if_neg h1, if_neg h1]
    by_cases h2 : j = l.length
    · subst h2
      simp
    · rw [if_neg h2, List.getElem?_eq_none_iff]
      simp
      omega

/-- Helper: indexing after a single column push. -/
theorem pushTileAt_get (g : Grid) (x : Nat) (t : Tile) (j : Nat) :
    (pushTileAt g x t)[j]? =
      if j = x then (g[j]?).map (fun col => col ++ [t]) else g[j]? := by
  cases hx : g[x]? with
  | none =>
    have hp : pushTileAt g x t = g := by
      simp only [pushTileAt, hx]
    rw [hp]
    split
    · next hj =>
      subst hj
      rw [hx]
      rfl
    · rfl
  | some col =>
    have hlt : x < g.length := (List.getElem?_eq_some.mp hx).1
    have hp : pushTileAt g x t = g.set x (col ++ [t]) := by
      simp only [pushTileAt, hx]
    rw [hp]
    split
    · next hj =>
      subst hj
      rw [List.getElem?_set_self hlt, hx]
      rfl
    · next hj =>
      exact List.getElem?_set_ne (fun e => hj e.symm)

/-- Helper: indexing after the inner tile-push loop of `fill` at column
`x`: that column gains the `h` fresh tiles, all others are untouched. -/
theorem inner_push_get (ty : TileType) (x : Nat) :
    ∀ (h : Nat) (G : Grid) (j : Nat),
      ((List.range h).foldl
          (fun g2 (y : Nat) => pushTileAt g2 x ⟨ty, x, y, -1, none⟩) G)[j]? =
        if j = x then
          (G[j]?).map (fun col =>
            col ++ (List.range h).map fun y => ⟨ty, x, y, -1, none⟩)
        else G[j]? := by
  intro h
  induction h with
  | zero =>
    intro G j
    simp only [List.range_zero, List.foldl_nil, List.map_nil, List.append_nil]
    split
    · cases hg : G[j]? <;> simp
    · rfl
  | succ n ih =>
    intro G j
    rw [List.range_succ, List.foldl_append, List.foldl_cons, List.foldl_nil,
      pushTileAt_get]
    split
    · next hj =>
      rw [ih G j, if_pos hj]
      cases hg : G[j]? with
      | none => rfl
      | some col =>
        simp only [Option.map_some', Option.some.injEq]
        rw [List.map_append, List.append_assoc]
        rfl
    · next hj =>
      rw [ih G j, if_neg hj]

/-- Helper: the length of the filled matrix (the outer loop appends one
column per iteration; the inner pushes never change the column count). -/
theorem inner_push_length (ty : TileType) (x : Nat) (h : Nat) (G : Grid) :
    ((List.range h).foldl
        (fun g2 (y : Nat) => pushTileAt g2 x ⟨ty, x, y, -1, none⟩) G).length = G.length := by
  refine foldl_preserve (P := fun (G2 : Grid) => G2.length = G.length) _ ?_ _ _ rfl
  intro a b ha
  rw [pushTileAt]
  cases hx : a[x]? with
  | none => exact ha
  | some col =>
    rw [List.length_set]
    exact ha

/-- Helper: `fill` grows the column count by exactly the stage width. -/
theorem fillTiles_length (w h : Nat) (ty : TileType) (g0 : Grid) :
    (fillTiles w h ty g0).length = g0.length + w := by
  induction w with
  | zero => rfl
  | succ n ih =>
    rw [fillTiles, List.range_succ, List.foldl_append, List.foldl_cons, List.foldl_nil,
      inner_push_length, List.length_append]
    rw [fillTiles] at ih
    rw [ih]
    simp
    omega

/-- Helper: full pointwise description of `fill`'s allocation loop: old
columns below the stage width gain the fresh tiles (on a repeated build
these are the first run's columns), the other old columns are untouched,
and the appended columns beyond the old length receive tiles only where
the old length is zero — on a repeated build they stay empty. -/
theorem fillTiles_get (w h : Nat) (ty : TileType) (g0 : Grid) (j : Nat) :
    (fillTiles w h ty g0)[j]? =
      if j < g0.length then
        (g0[j]?).map (fun col =>
          col ++ (if j < w then
            (List.range h).map (fun (y : Nat) => (⟨ty, j, y, -1, none⟩ : Tile)) else []))
      else if j < g0.length + w then
        some (if j < w then
          (List.range h).map (fun (y : Nat) => (⟨ty, j, y, -1, none⟩ : Tile)) else [])
      else none := by
  induction w with
  | zero =>
    simp only [fillTiles, List.range_zero, List.foldl_nil]
    by_cases h1 : j < g0.length
    · rw [if_pos h1, if_neg (by omega)]
      cases hg : g0[j]? <;> simp
    · rw [if_neg h1, if_neg (by omega), List.getElem?_eq_none_iff]
      omega
  | succ n ih =>
    have hfl : (fillTiles n h ty g0).length = g0.length + n := fillTiles_length n h ty g0
    have hstep : fillTiles (n + 1) h ty g0 =
        (List.range h).foldl (fun g2 (y : Nat) => pushTileAt g2 n ⟨ty, n, y, -1, none⟩)
          (fillTiles n h ty g0 ++ [[]]) := by
      rw [fillTiles, List.range_succ, List.foldl_append, List.foldl_cons, List.foldl_nil]
      rfl
    rw [hstep, inner_push_get, append_single_get, hfl]
    by_cases hjn : j = n
    · subst hjn
      rw [if_pos rfl]
      by_cases h1 : j < g0.length
      · rw [if_pos (by omega), ih, if_pos h1, if_neg (by omega)]
        rw [if_pos h1, if_pos (by omega)]
        cases hg : g0[j]? <;> simp
      · by_cases h0 : g0.length = 0
        · rw [if_neg (by omega), if_pos (by omega)]
          rw [if_neg h1, if_pos (by omega), if_pos (by omega)]
          simp
        · rw [if_pos (by omega), ih, if_neg h1, if_pos (by omega), if_neg (by omega)]
          rw [if_neg h1, if_pos (by omega), if_pos (by omega)]
          simp
    · rw [if_neg hjn, ih]
      have hif : (if j < n then
            (List.range h).map (fun (y : Nat) => (⟨ty, j, y, -1, none⟩ : Tile))
          else ([] : List Tile)) =
          if j < n + 1 then
            (List.range h).map (fun (y : Nat) => (⟨ty, j, y, -1, none⟩ : Tile))
          else ([] : List Tile) :=
        if_congr (by omega) rfl rfl
      rw [hif]
      split_ifs <;> first
        | rfl
        | omega

/-- Helper: single-tile mutation never changes the column count. -/
theorem tset_length (g : Grid) (x y : Int) (f : Tile → Tile) :
    (tset g x y f).length = g.length := by
  by_cases hneg : x < 0 ∨ y < 0
  · simp only [tset, if_pos hneg]
  · cases hcol : g[x.toNat]? with
    | none => simp only [tset, if_neg hneg, hcol]
    | some col => simp only [tset, if_neg hneg, hcol, List.length_set]

/-- Helper: `setTile` preserves the column count. -/
theorem setTileS_tiles_length (st : DState) (x y : Int) (ty : TileType) :
    (setTileS st x y ty).tiles.length = st.tiles.length :=
  tset_length _ _ _ _

/-- Helper: `carveArea` preserves the column count. -/
theorem carveArea_tiles_length (x y w h : Int) (st : DState) :
    (carveArea x y w h st).tiles.length = st.tiles.length := by
  unfold carveArea
  refine foldl_preserve (P := fun (s : DState) => s.tiles.length = st.tiles.length)
    _ ?_ _ _ rfl
  intro a i ha
  refine foldl_preserve (P := fun (s : DState) => s.tiles.length = st.tiles.length)
    _ ?_ _ _ ha
  intro a2 j ha2
  rw [setTileS_tiles_length]
  exact ha2

/-- Helper: one room attempt preserves the column count and extends the
room list. -/
theorem roomAttempt_frame (o : DOptions) (sw sh : Int) (st : DState) :
    (roomAttempt o sw sh st).tiles.length = st.tiles.length ∧
      st.rooms <+: (roomAttempt o sw sh st).rooms := by
  simp only [roomAttempt]
  split
  · exact ⟨rfl, List.prefix_rfl⟩
  · constructor
    · rw [carveArea_tiles_length]
      rfl
    · rw [(carveArea_frame _ _ _ _ _).1]
      exact ⟨_, rfl⟩

/-- Helper: `addRooms` preserves the column count and extends the room
list. -/
theorem addRooms_frame (o : DOptions) (sw sh : Int) (st : DState) :
    (addRooms o sw sh st).tiles.length = st.tiles.length ∧
      st.rooms <+: (addRooms o sw sh st).rooms := by
  unfold addRooms
  refine foldl_preserve
    (P := fun (s : DState) => s.tiles.length = st.tiles.length ∧ st.rooms <+: s.rooms)
    _ ?_ _ _ ⟨rfl, List.prefix_rfl⟩
  intro a _ ha
  obtain ⟨h1, h2⟩ := roomAttempt_frame o sw sh a
  exact ⟨h1.trans ha.1, ha.2.trans h2⟩

/-- Helper: the maze-growth loop changes neither column count nor rooms. -/
theorem growMazeLoop_frame (o : DOptions) :
    ∀ (fuel : Nat) (cells : List Point) (ld : Option Point) (st : DState),
      (growMazeLoop o fuel cells ld st).tiles.length = st.tiles.length ∧
        (growMazeLoop o fuel cells ld st).rooms = st.rooms := by
  intro fuel
  induction fuel with
  | zero => intro cells ld st; exact ⟨rfl, rfl⟩
  | succ n ih =>
    intro cells ld st
    cases cells with
    | nil => exact ⟨rfl, rfl⟩
    | cons c0 rest =>
      simp only [growMazeLoop]
      split
      · exact ih _ _ _
      · constructor
        · rw [(ih _ _ _).1, setTileS_tiles_length, setTileS_tiles_length]
        · rw [(ih _ _ _).2, (setTileS_frame _ _ _ _).1, (setTileS_frame _ _ _ _).1]

/-- Helper: `growMaze` changes neither column count nor rooms. -/
theorem growMaze_frame (o : DOptions) (sx sy : Int) (st : DState) :
    (growMaze o sx sy st).tiles.length = st.tiles.length ∧
      (growMaze o sx sy st).rooms = st.rooms := by
  simp only [growMaze]
  split
  · exact ⟨rfl, rfl⟩
  · obtain ⟨h1, h2⟩ := growMazeLoop_frame o 500 [⟨sx, sy⟩] none _
    constructor
    · rw [h1, setTileS_tiles_length]
      rfl
    · rw [h2, (setTileS_frame _ _ _ _).1]
      rfl

/-- Helper: the maze pass changes neither column count nor rooms. -/
theorem mazeAll_frame (o : DOptions) (sw sh : Int) (st : DState) :
    (mazeAll o sw sh st).tiles.length = st.tiles.length ∧
      (mazeAll o sw sh st).rooms = st.rooms := by
  unfold mazeAll
  refine foldl_preserve
    (P := fun (s : DState) => s.tiles.length = st.tiles.length ∧ s.rooms = st.rooms)
    _ ?_ _ _ ⟨rfl, rfl⟩
  intro a y ha
  refine foldl_preserve
    (P := fun (s : DState) => s.tiles.length = st.tiles.length ∧ s.rooms = st.rooms)
    _ ?_ _ _ ha
  intro a2 x ha2
  cases htg : tget a2.tiles x y with
  | none =>
    obtain ⟨h1, h2⟩ := growMaze_frame o x y a2
    exact ⟨h1.trans ha2.1, h2.trans ha2.2⟩
  | some t =>
    dsimp only
    by_cases hty : t.type = TileType.floor
    · rw [if_pos hty]
      exact ha2
    · rw [if_neg hty]
      obtain ⟨h1, h2⟩ := growMaze_frame o x y a2
      exact ⟨h1.trans ha2.1, h2.trans ha2.2⟩

/-- Helper: the bucket loop preserves the column count. -/
theorem bucketIter_length (o : DOptions) (bucket : List (Int × Int)) (dc : Int) :
    ∀ (fuel : Nat) (bs : BucketSt),
      (bucketIter o bucket dc fuel bs).g.length = bs.g.length := by
  intro fuel
  induction fuel with
  | zero => intro bs; rfl
  | succ n ih =>
    intro bs
    simp only [bucketIter]
    split
    · split
      · split
        · rw [ih]
          exact tset_length _ _ _ _
        · rw [ih]
      · rw [ih]
    · rfl

/-- Helper: bucket processing preserves the column count and the rooms. -/
theorem processBucket_frame (o : DOptions) (bucket : List (Int × Int)) (st : DState) :
    (processBucket o bucket st).1.tiles.length = st.tiles.length ∧
      (processBucket o bucket st).1.rooms = st.rooms := by
  constructor
  · simp only [processBucket]
    split
    · exact (tset_length _ _ _ _).trans (bucketIter_length o bucket _ _ _)
    · exact bucketIter_length o bucket _ _ _
  · rfl

/-- Helper: `connectRegions` preserves the column count and the rooms. -/
theorem connectRegions_frame (o : DOptions) (st : DState) :
    (connectRegions o st).tiles.length = st.tiles.length ∧
      (connectRegions o st).rooms = st.rooms := by
  unfold connectRegions
  refine foldl_preserve
    (P := fun (s : DState) => s.tiles.length = st.tiles.length ∧ s.rooms = st.rooms)
    _ ?_ _ _ ⟨rfl, rfl⟩
  intro a kb ha
  obtain ⟨h1, h2⟩ := processBucket_frame o kb.2 a
  exact ⟨h1.trans ha.1, h2.trans ha.2⟩

/-- Helper: a dead-end pass preserves the column count. -/
theorem cycle_fold_length (rooms : List Room) :
    ∀ (cs : List (Nat × Nat)) (g : Grid) (d : Bool),
      (cs.foldl (rdeStep rooms) (g, d)).1.length = g.length := by
  intro cs
  induction cs with
  | nil => intro g d; rfl
  | cons c cs ih =>
    intro g d
    rcases rdeStep_cases rooms g d c with h | ⟨t, _, _, h⟩
    · rw [List.foldl_cons, h]
      exact ih g d
    · rw [List.foldl_cons, h]
      rw [ih _ _]
      exact tset_length _ _ _ _

/-- Helper: the dead-end loop preserves the column count. -/
theorem rdeLoop_length (rooms : List Room) :
    ∀ (fuel : Nat) (g : Grid), (rdeLoop rooms fuel g).length = g.length := by
  intro fuel
  induction fuel with
  | zero => intro g; rfl
  | succ n ih =>
    intro g
    simp only [rdeLoop]
    have hc : (cycleD rooms g).1.length = g.length :=
      cycle_fold_length rooms (idxPairs g) g true
    split
    · exact hc
    · rw [ih _, hc]

/-- Helper: on a fresh (empty) matrix, `fill` produces exactly the
spec-described fresh columns. -/
theorem fillTiles_nil (w h : Nat) (ty : TileType) :
    fillTiles w h ty [] = freshColumnsSpec w h ty := by
  apply List.ext_getElem?
  intro j
  rw [fillTiles_get]
  simp only [List.length_nil]
  rw [if_neg (by omega)]
  rw [freshColumnsSpec, List.getElem?_map]
  by_cases hj : j < w
  · rw [if_pos (by omega), if_pos hj, List.getElem?_range hj]
    rfl
  · rw [if_neg (by omega)]
    have : (List.range w)[j]? = none := by
      rw [List.getElem?_eq_none_iff, List.length_range]
      omega
    rw [this]
    rfl

/-- Helper: a successful `build` returns the accumulated state: the tile
matrix has grown by the effective width worth of columns and the previous
rooms are still a prefix of the room list — nothing is reset. -/
theorem buildD_ok (o : DOptions) (stage : Stage) (slug : Unit → String)
    (st0 : DState) (hw : ¬stage.width < 5) (hh : ¬stage.height < 5) :
    ∃ res st1, buildD o stage slug st0 = Except.ok (res, st1) ∧
      res.tiles = st1.tiles ∧ res.rooms = st1.rooms ∧
      st1.tiles.length =
        st0.tiles.length + (effectiveDim o.multiplier stage.width).toNat ∧
      st0.rooms <+: st1.rooms := by
  set sw := effectiveDim o.multiplier stage.width with hsw
  set sh := effectiveDim o.multiplier stage.height with hsh
  set seed := seedOrSlug stage.seed slug with hseed
  set stA : DState := { st0 with rng := ⟨chanceStream seed, 0⟩ } with hA
  set stB : DState :=
    { stA with tiles := fillTiles sw.toNat sh.toNat TileType.wall stA.tiles } with hB
  set stC := addRooms o sw sh stB with hC
  set stD := mazeAll o sw sh stC with hD
  set stE := connectRegions o stD with hE
  set stF : DState := if o.removeDeadEnds then
      { stE with tiles := removeDeadEndsD stE.rooms stE.tiles }
    else stE with hF
  have hAt : stA.tiles = st0.tiles := by
    rw [hA]
  have hAr : stA.rooms = st0.rooms := by
    rw [hA]
  have hbuild : buildD o stage slug st0 = Except.ok (⟨stF.rooms, stF.tiles, seed⟩, stF) := by
    simp only [buildD, if_neg hw, if_neg hh]
  refine ⟨_, _, hbuild, rfl, rfl, ?_, ?_⟩
  · have hlenF : stF.tiles.length = stE.tiles.length := by
      rw [hF]
      split
      · exact rdeLoop_length stE.rooms _ stE.tiles
      · rfl
    rw [hlenF, hE, (connectRegions_frame o stD).1, hD, (mazeAll_frame o sw sh stC).1,
      hC, (addRooms_frame o sw sh stB).1, hB]
    show (fillTiles sw.toNat sh.toNat TileType.wall stA.tiles).length =
      st0.tiles.length + sw.toNat
    rw [fillTiles_length, hAt]
  · have hFr : stF.rooms = stE.rooms := by
      rw [hF]
      split
      · rfl
      · rfl
    have hBr : stB.rooms = st0.rooms := by
      rw [hB, hA]
    rw [hFr, hE, (connectRegions_frame o stD).2, hD, (mazeAll_frame o sw sh stC).2, hC,
      ← hBr]
    exact (addRooms_frame o sw sh stB).2

/-- **C10 (counterexample).** `fill` does not append `stage.width` columns
of fresh tiles when the matrix already has columns: with one existing
column and a 2×1 stage, the result is not the old matrix followed by the
fresh columns — the last appended column stays empty (the fresh tiles were
pushed onto the old column instead). -/
theorem claim10_counterexample :
    fillTiles 2 1 TileType.wall [[⟨TileType.wall, 0, 0, -1, none⟩]] ≠
        [[⟨TileType.wall, 0, 0, -1, none⟩]] ++ freshColumnsSpec 2 1 TileType.wall ∧
      (fillTiles 2 1 TileType.wall [[⟨TileType.wall, 0, 0, -1, none⟩]])[2]? =
        some [] := by
  exact ⟨by decide, by decide⟩

/-- **C10 (amended).** A `Dungeon` instance is single-use, but `fill`'s
appended columns carry the fresh tiles only on a first build: `fill` always
appends `stage.width` new columns to the existing matrix without clearing
it; on an empty matrix those columns are exactly the fresh-tile columns,
while on a matrix that already has at least `stage.width` columns the fresh
tiles are pushed onto the first run's columns and the appended columns stay
empty.  `build` never resets the tile matrix or the room list: a second
`build` returns a state whose matrix still contains the first run's columns
(its column count is the old count plus the effective width) and whose room
list still starts with the first run's rooms. -/
theorem claim10_single_use_accumulation :
    (∀ (w h : Nat) (ty : TileType) (g0 : Grid),
        (fillTiles w h ty g0).length = g0.length + w) ∧
      (∀ (w h : Nat) (ty : TileType), fillTiles w h ty [] = freshColumnsSpec w h ty) ∧
      (∀ (w h : Nat) (ty : TileType) (g0 : Grid) (j : Nat), w ≤ g0.length → j < w →
        (fillTiles w h ty g0)[j]? =
          (g0[j]?).map (fun col =>
            col ++ (List.range h).map (fun (y : Nat) => (⟨ty, j, y, -1, none⟩ : Tile)))) ∧
      (∀ (w h : Nat) (ty : TileType) (g0 : Grid) (j : Nat), w ≤ g0.length →
        g0.length ≤ j → j < g0.length + w → (fillTiles w h ty g0)[j]? = some []) ∧
      (∀ (o : DOptions) (stage : Stage) (slug : Unit → String) (st0 : DState),
        ¬stage.width < 5 → ¬stage.height < 5 →
        ∃ res st1, buildD o stage slug st0 = Except.ok (res, st1) ∧
          res.tiles = st1.tiles ∧ res.rooms = st1.rooms ∧
          st1.tiles.length =
            st0.tiles.length + (effectiveDim o.multiplier stage.width).toNat ∧
          st0.rooms <+: st1.rooms) := by
  refine ⟨fillTiles_length, fillTiles_nil, ?_, ?_, buildD_ok⟩
  · intro w h ty g0 j hwle hjw
    rw [fillTiles_get, if_pos (by omega), if_pos hjw]
  · intro w h ty g0 j hwle hj1 hj2
    rw [fillTiles_get, if_neg (by omega), if_pos (by omega), if_neg (by omega)]

/-- Witness for C10's amended theorem: a successful 5×5 build from a fresh
instance, applied through the build part of the theorem. -/
theorem claim10_single_use_accumulation_witness :
    ∃ res st1,
      buildD defaultOptions ⟨5, 5, some "s"⟩ (fun _ => "slug") initState =
          Except.ok (res, st1) ∧
        res.tiles = st1.tiles ∧ res.rooms = st1.rooms ∧
        st1.tiles.length =
          initState.tiles.length + (effectiveDim defaultOptions.multiplier 5).toNat ∧
        initState.rooms <+: st1.rooms :=
  claim10_single_use_accumulation.2.2.2.2 defaultOptions ⟨5, 5, some "s"⟩
    (fun _ => "slug") initState (by decide) (by decide)

end DungeonGen
